import Mathlib

/-!
# Verification of the Thera-Engine search subsystem

A shallow embedding of the Rust chess engine sources (`src/`): evaluations
(`centi_pawns.rs`), the transposition table (`transposition_table.rs`), the
alpha-beta window (`alpha_beta_window.rs`), board state with make/unmake and
Zobrist hashing (`board.rs`), the move generator (`move_generator.rs`) and the
iterative-deepening search (`search.rs`).

Machine integers are modelled as `Nat`/`Int`: `u64` bitboards are `Nat`s kept
below `2 ^ 64` by explicit masking where the source relies on wrap-around,
and XOR-only Zobrist hashes are plain `Nat` XOR.  Panicking `unwrap()` calls
on values the engine guarantees to be present are modelled with `Option.getD`.
-/

namespace Thera

/-- `CentiPawns(i32)` from `centi_pawns.rs`; the wrapped `i32` is modelled
as an unbounded `Int` (the engine never approaches the `i32` range). -/
structure CentiPawns where
  val : Int
deriving DecidableEq, Repr

/-- `CentiPawns::piece_value` (`centi_pawns.rs`). -/
inductive Piece where
  | Pawn
  | Bishop
  | Knight
  | Rook
  | Queen
  | King
deriving DecidableEq, Repr

/-- `Piece::ALL` (`piece.rs`). -/
def Piece.ALL : List Piece :=
  [.Pawn, .Bishop, .Knight, .Rook, .Queen, .King]

/-- `CentiPawns::piece_value` (`centi_pawns.rs`). -/
def CentiPawns.piece_value : Piece → CentiPawns
  | .Pawn => ⟨100⟩
  | .Knight => ⟨320⟩
  | .Bishop => ⟨330⟩
  | .Rook => ⟨500⟩
  | .Queen => ⟨900⟩
  | .King => ⟨0⟩

/-- `impl Neg for CentiPawns` goes through `self * -1`. -/
def CentiPawns.mul (a : CentiPawns) (rhs : Int) : CentiPawns :=
  ⟨a.val * rhs⟩

/-- `impl Sub for CentiPawns`. -/
def CentiPawns.sub (a b : CentiPawns) : CentiPawns :=
  ⟨a.val - b.val⟩

/-- `impl Add for CentiPawns`. -/
def CentiPawns.add (a b : CentiPawns) : CentiPawns :=
  ⟨a.val + b.val⟩

/-- The `Evaluation` sum type of `centi_pawns.rs`: `Win`/`Loss` carry `u32`
plies (modelled as `Nat`), `CentiPawns` carries the scalar score. -/
inductive Evaluation where
  | Win : Nat → Evaluation
  | Loss : Nat → Evaluation
  | CentiPawns : CentiPawns → Evaluation
deriving DecidableEq, Repr

/-- `Evaluation::MIN = Loss(0)`. -/
def Evaluation.MIN : Evaluation := .Loss 0

/-- `Evaluation::MAX = Win(0)`. -/
def Evaluation.MAX : Evaluation := .Win 0

/-- `Evaluation::DRAW = CentiPawns(0)`. -/
def Evaluation.DRAW : Evaluation := .CentiPawns ⟨0⟩

/-- `impl Ord for Evaluation::cmp` (`centi_pawns.rs` lines 171-187),
branch for branch.  `depth2.cmp(depth1)` for `Win` (winning earlier is
better), `depth1.cmp(depth2)` for `Loss` (losing later is better). -/
def Evaluation.cmp : Evaluation → Evaluation → Ordering
  | .Win depth1, .Win depth2 => compare depth2 depth1
  | .Win _depth, .CentiPawns _ => .gt
  | .Win _depth, .Loss _ => .gt
  | .Loss _depth, .Win _ => .lt
  | .Loss _depth, .CentiPawns _ => .lt
  | .Loss depth1, .Loss depth2 => compare depth1 depth2
  | .CentiPawns _cp, .Win _ => .lt
  | .CentiPawns cp1, .CentiPawns cp2 => compare cp1.val cp2.val
  | .CentiPawns _cp, .Loss _ => .gt

/-- `impl Mul<NonZeroI32> for Evaluation` (`centi_pawns.rs` lines 125-139).
The `rhs = 0` arm is the source's `unreachable!`; it is modelled as the
identity and is never exercised (negation always uses `rhs = -1`). -/
def Evaluation.mul (e : Evaluation) (rhs : Int) : Evaluation :=
  match e, compare rhs 0 with
  | e, .eq => e
  | .Win x, .lt => .Loss x
  | .Win x, .gt => .Win x
  | .Loss x, .lt => .Win x
  | .Loss x, .gt => .Loss x
  | .CentiPawns cp, _ => .CentiPawns (cp.mul rhs)

/-- `impl Neg for Evaluation`: `self * -1`. -/
def Evaluation.neg (e : Evaluation) : Evaluation :=
  e.mul (-1)

instance : LT Evaluation := ⟨fun a b => Evaluation.cmp a b = .lt⟩

instance : LE Evaluation := ⟨fun a b => Evaluation.cmp a b ≠ .gt⟩

instance (a b : Evaluation) : Decidable (a < b) :=
  inferInstanceAs (Decidable (Evaluation.cmp a b = .lt))

instance (a b : Evaluation) : Decidable (a ≤ b) :=
  inferInstanceAs (Decidable (Evaluation.cmp a b ≠ .gt))

/-- `EvalKind` (`transposition_table.rs`). -/
inductive EvalKind where
  | Exact
  | LowerBound
  | UpperBound
deriving DecidableEq, Repr

/-- The `Move` variant type (`piece.rs`).  Squares are carried as single-bit
bitboards, modelled as `Nat`s. -/
inductive Move where
  | Normal (from_square to_square : Nat) (captured_piece : Option Piece)
      (moved_piece : Piece)
  | DoublePawn (from_square to_square : Nat)
  | EnPassant (from_square to_square : Nat)
  | Castle (from_square to_square rook_from_square rook_to_square : Nat)
  | Promotion (from_square to_square : Nat) (promotion_piece : Piece)
      (captured_piece : Option Piece)
deriving DecidableEq, Repr

/-- `NodeEvalSummary` (`alpha_beta_window.rs`).  The `best_move` field is
absent from the tree's copy of the file but is read by
`transposition_table.rs` (`node.best_move`) and `search.rs`
(`out.best_move`); it is modelled from the spec: "Also surfaces the best
move and plies." -/
structure NodeEvalSummary where
  eval : Evaluation
  kind : EvalKind
  plies : Nat
  best_move : Option Move
deriving DecidableEq, Repr

/-- `AlphaBetaWindow` (`alpha_beta_window.rs`).  The `best_move` field is
modelled from the spec ("`update(eval, move?)`: if `eval > best_so_far`,
record as new best (and best-move)"). -/
structure AlphaBetaWindow where
  starting_alpha : Evaluation
  alpha : Evaluation
  beta : Evaluation
  best : Evaluation
  best_move : Option Move
  plies : Nat
deriving DecidableEq, Repr

/-- `AlphaBetaWindow::new` (without the `alpha <= beta` debug assertion). -/
def AlphaBetaWindow.new (alpha beta : Evaluation) (plies : Nat) :
    AlphaBetaWindow :=
  { alpha, starting_alpha := alpha, beta, best := Evaluation.MIN,
    best_move := none, plies }

/-- `impl Default for AlphaBetaWindow`. -/
def AlphaBetaWindow.default : AlphaBetaWindow :=
  AlphaBetaWindow.new Evaluation.MIN Evaluation.MAX 0

/-- `AlphaBetaWindow::causes_cutoff`. -/
def AlphaBetaWindow.causes_cutoff (w : AlphaBetaWindow) (eval : Evaluation) :
    Bool :=
  w.beta ≤ eval

/-- `AlphaBetaWindow::has_cutoff`. -/
def AlphaBetaWindow.has_cutoff (w : AlphaBetaWindow) : Bool :=
  w.causes_cutoff w.best

/-- `AlphaBetaWindow::fails_low`. -/
def AlphaBetaWindow.fails_low (w : AlphaBetaWindow) (eval : Evaluation) :
    Bool :=
  eval ≤ w.alpha

/-- `WindowUpdate` (`alpha_beta_window.rs`). -/
inductive WindowUpdate where
  | NoImprovement
  | NewBest
  | Prune
deriving DecidableEq, Repr

/-- `AlphaBetaWindow::update`, with the best-move recording of the
two-argument form used by `search.rs`, modelled from the spec ("if
`eval > best_so_far`, record as new best (and best-move)"). -/
def AlphaBetaWindow.update (w : AlphaBetaWindow) (eval : Evaluation)
    (m : Option Move) : WindowUpdate × AlphaBetaWindow :=
  let w := if w.alpha < eval then { w with alpha := eval } else w
  if w.best < eval then
    let w := { w with best := eval, best_move := m }
    if w.has_cutoff then (.Prune, w) else (.NewBest, w)
  else
    (.NoImprovement, w)

/-- `AlphaBetaWindow::next_depth`. -/
def AlphaBetaWindow.next_depth (w : AlphaBetaWindow) : AlphaBetaWindow :=
  AlphaBetaWindow.new w.beta.neg w.alpha.neg (w.plies + 1)

/-- `AlphaBetaWindow::set_exact`, with the `best_move` argument of the
two-argument form used by `search.rs` (spec: a TT hit "return[s] the stored
entry"). -/
def AlphaBetaWindow.set_exact (w : AlphaBetaWindow) (eval : Evaluation)
    (best_move : Option Move) : NodeEvalSummary :=
  { eval, kind := .Exact, plies := w.plies, best_move }

/-- Modelled from the spec: `set_draw` is called by `search.rs` for the
draw-by-50/repetition and stalemate cases ("return a draw summary", result
`DRAW`); it is not present in the tree's `alpha_beta_window.rs`. -/
def AlphaBetaWindow.set_draw (w : AlphaBetaWindow) : NodeEvalSummary :=
  { eval := Evaluation.DRAW, kind := .Exact, plies := w.plies,
    best_move := none }

/-- Modelled from the spec: `set_loss` is called by `search.rs` for the
checkmate case ("the result is `Loss(plies)` if in check"); it is not
present in the tree's `alpha_beta_window.rs`. -/
def AlphaBetaWindow.set_loss (w : AlphaBetaWindow) : NodeEvalSummary :=
  { eval := .Loss w.plies, kind := .Exact, plies := w.plies,
    best_move := none }

/-- `AlphaBetaWindow::finalize`; `best_move` surfaced per the spec. -/
def AlphaBetaWindow.finalize (w : AlphaBetaWindow) : NodeEvalSummary :=
  { eval := w.best,
    kind :=
      if w.best ≤ w.starting_alpha then .UpperBound
      else if w.beta ≤ w.best then .LowerBound
      else .Exact,
    plies := w.plies,
    best_move := w.best_move }

/-- `TranspositionEntry` (`transposition_table.rs`). -/
structure TranspositionEntry where
  hash : Nat
  eval : Evaluation
  depth : Nat
  kind : EvalKind
  subnodes : Nat
  best_move : Option Move
deriving DecidableEq, Repr

/-- `TranspositionTable` (`transposition_table.rs`): a fixed-size vector of
optional entries plus the occupancy counter. -/
structure TranspositionTable where
  table : List (Option TranspositionEntry)
  used_slots : Nat
deriving DecidableEq, Repr

/-- `TranspositionTable::new(size)`. -/
def TranspositionTable.new (size : Nat) : TranspositionTable :=
  { table := List.replicate size none, used_slots := 0 }

/-- `TranspositionTable::capacity`. -/
def TranspositionTable.capacity (t : TranspositionTable) : Nat :=
  t.table.length

/-- `TranspositionTable::get`, keyed by the board's Zobrist hash (the board
argument is reduced to the hash it supplies). -/
def TranspositionTable.getByHash (t : TranspositionTable) (hash : Nat) :
    Option TranspositionEntry := do
  let hash_part := hash % t.table.length
  let entry ← t.table.getD hash_part none
  if entry.hash = hash then some entry else none

/-- `TranspositionTable::get_if_improves` (`transposition_table.rs` lines
45-71): on a hash-and-depth hit, add the current ply back onto `Win`/`Loss`
distances and return the entry iff its bound kind is usable in `window`. -/
def TranspositionTable.get_if_improves (t : TranspositionTable) (hash : Nat)
    (depth : Nat) (window : AlphaBetaWindow) : Option TranspositionEntry :=
  match t.getByHash hash with
  | some entry =>
    if depth ≤ entry.depth then
      let entry :=
        { entry with
          eval :=
            match entry.eval with
            | .Win x => .Win (x + window.plies)
            | .Loss x => .Loss (x + window.plies)
            | x => x }
      let can_prune :=
        match entry.kind with
        | .Exact => true
        | .LowerBound => window.causes_cutoff entry.eval
        | .UpperBound => window.fails_low entry.eval
      if can_prune then some entry else none
    else none
  | none => none

/-- `TranspositionTable::insert` (`transposition_table.rs` lines 83-114):
mate distances are stored relative to the node (`x - node.plies`, the
source's `u32` subtraction, total here as `Nat` truncated subtraction);
`used_slots` is bumped exactly when an empty slot is filled, and the best
move of a same-hash entry is kept when the new summary has none. -/
def TranspositionTable.insert (t : TranspositionTable) (hash : Nat)
    (depth : Nat) (node : NodeEvalSummary) (subnodes : Nat) :
    TranspositionTable :=
  let hash_part := hash % t.table.length
  let entry := t.table.getD hash_part none
  let replace :=
    match entry with
    | none => true
    | some entry => entry.depth ≤ depth || entry.hash ≠ hash
  if replace then
    { table :=
        t.table.set hash_part
          (some
            { hash
              eval :=
                match node.eval with
                | .Win x => .Win (x - node.plies)
                | .Loss x => .Loss (x - node.plies)
                | x => x
              depth
              kind := node.kind
              subnodes
              best_move :=
                match entry with
                | some old =>
                  if old.hash = hash then node.best_move.or old.best_move
                  else node.best_move
                | none => node.best_move }),
      used_slots := if entry = none then t.used_slots + 1 else t.used_slots }
  else
    t

/-- The entry that `insert` writes into a fresh table. -/
def freshEntry (hash dIns subn : Nat) (node : NodeEvalSummary) :
    TranspositionEntry :=
  { hash
    eval :=
      match node.eval with
      | .Win x => .Win (x - node.plies)
      | .Loss x => .Loss (x - node.plies)
      | x => x
    depth := dIns
    kind := node.kind
    subnodes := subn
    best_move := node.best_move }

/-- Number of occupied (`some`) slots of a table vector. -/
def countSome : List (Option TranspositionEntry) → Nat
  | [] => 0
  | none :: rest => countSome rest
  | some _ :: rest => countSome rest + 1

/-- Concrete insert sequence used by the C10 witness. -/
def demoOps : List (Nat × Nat × NodeEvalSummary × Nat) :=
  [(3, 2,
    { eval := .CentiPawns ⟨5⟩, kind := .Exact, plies := 0,
      best_move := none }, 9),
   (7, 1,
    { eval := .Win 3, kind := .LowerBound, plies := 1,
      best_move := none }, 2)]

/-- `Color` (`color.rs`). -/
inductive Color where
  | White
  | Black
deriving DecidableEq, Repr

/-- `Color::opposite`. -/
def Color.opposite : Color → Color
  | .White => .Black
  | .Black => .White

/-- `color as usize`. -/
def Color.idx : Color → Nat
  | .White => 0
  | .Black => 1

/-- `piece as usize`. -/
def Piece.idx : Piece → Nat
  | .Pawn => 0
  | .Bishop => 1
  | .Knight => 2
  | .Rook => 3
  | .Queen => 4
  | .King => 5

/-- The eight compass directions (`direction.rs`) with their `#[repr(i8)]`
discriminants (`North = 8`, `South = -8`, `East = -1`, `West = 1`, and the
diagonal sums). -/
inductive Direction where
  | North
  | South
  | East
  | West
  | NorthEast
  | NorthWest
  | SouthEast
  | SouthWest
deriving DecidableEq, Repr

/-- The `repr(i8)` discriminant of a `Direction`. -/
def Direction.val : Direction → Int
  | .North => 8
  | .South => -8
  | .East => -1
  | .West => 1
  | .NorthEast => 7
  | .NorthWest => 9
  | .SouthEast => -9
  | .SouthWest => -7

/-- `Direction::ALL`. -/
def Direction.ALL : List Direction :=
  [.North, .South, .East, .West, .NorthEast, .NorthWest, .SouthEast,
    .SouthWest]

/-- `Direction::opposite`. -/
def Direction.opposite : Direction → Direction
  | .North => .South
  | .South => .North
  | .East => .West
  | .West => .East
  | .NorthEast => .SouthWest
  | .NorthWest => .SouthEast
  | .SouthEast => .NorthWest
  | .SouthWest => .NorthEast

/-- All-ones 64-bit mask. -/
def U64_ONES : Nat := 2 ^ 64 - 1

/-- Bitwise complement within 64 bits (`!x` on a `u64`). -/
def not64 (x : Nat) : Nat := x ^^^ U64_ONES

/-- Fuel-bounded trailing-zero count (structural recursion so that the
kernel evaluates it; 64 units of fuel cover every `u64` value). -/
def tzAux : Nat → Nat → Nat
  | 0, _ => 0
  | fuel + 1, n => if n % 2 = 1 ∨ n = 0 then 0 else tzAux fuel (n / 2) + 1

/-- `u64::trailing_zeros` restricted to nonzero inputs (callers guard with
the `Option` wrappers below). -/
def tz (n : Nat) : Nat := tzAux 64 n

/-- Fuel-bounded population count (64 units of fuel cover every `u64`). -/
def coAux : Nat → Nat → Nat
  | 0, _ => 0
  | fuel + 1, n => if n = 0 then 0 else n % 2 + coAux fuel (n / 2)

/-- `u64::count_ones`. -/
def countOnes (n : Nat) : Nat := coAux 64 n

/-- `u64::rotate_left` (by `k % 64`), on values below `2 ^ 64`. -/
def rotl64 (x k : Nat) : Nat :=
  ((x <<< (k % 64)) % 2 ^ 64) ||| (x >>> (64 - k % 64))

/-- The `i32`-to-`u32` cast the source's `rotate` performs on
`dir as i32 * n` (wrap into `[0, 2^32)`). -/
def toU32 (i : Int) : Nat := (i % 2 ^ 32).toNat

/-- `Bitboard::rotate` / `Bitboard::wrapping_shift` (`bitboard.rs`):
`rotate_left` by the wrapped direction multiple. -/
def wrapping_shift (bb : Nat) (dir : Direction) (n : Int) : Nat :=
  rotl64 bb (toU32 (dir.val * n))

/-- The `prevent_wrapping` edge masks (`bitboard.rs` lines 334-450),
written as the `u64` constants the `bitboard!` blocks denote. -/
def preventWrappingMask : Direction → Nat
  | .North => 0x00FFFFFFFFFFFFFF
  | .South => 0xFFFFFFFFFFFFFF00
  | .East => 0xFEFEFEFEFEFEFEFE
  | .West => 0x7F7F7F7F7F7F7F7F
  | .NorthEast => 0x00FEFEFEFEFEFEFE
  | .NorthWest => 0x007F7F7F7F7F7F7F
  | .SouthEast => 0xFEFEFEFEFEFEFE00
  | .SouthWest => 0x7F7F7F7F7F7F7F00

/-- `Bitboard::prevent_wrapping`. -/
def prevent_wrapping (bb : Nat) (dir : Direction) : Nat :=
  bb &&& preventWrappingMask dir

/-- `Bitboard::shift`: mask off the wrap-around edge, then rotate once. -/
def bbShift (bb : Nat) (dir : Direction) : Nat :=
  wrapping_shift (prevent_wrapping bb dir) dir 1

/-- `Bitboard::first_piece_index` (`least_significant_bit_index`):
`None` on the empty board, else the trailing-zero count. -/
def firstPieceIndex (bb : Nat) : Option Nat :=
  if bb = 0 then none else some (tz bb)

/-- `first_piece_square().unwrap()` as used throughout `board.rs`: the
engine guarantees a nonempty bitboard there, so the panicking `unwrap` is
modelled by defaulting to square 0. -/
def firstIdxD (bb : Nat) : Nat := (firstPieceIndex bb).getD 0

/-- `Square::column`: `7 - index % 8` (`square.rs`). -/
def squareColumn (sq : Nat) : Nat := 7 - sq % 8

/-- `Square::row`: `index / 8` (`square.rs`). -/
def squareRow (sq : Nat) : Nat := sq / 8

/-! ## Zobrist keys and the castling-key flaw (`board.rs` lines 101-134) -/

/-- `ZobristKeys` (`board.rs`): per-feature random keys, abstracted over
the PRNG output (`StdRng::seed_from_u64(0)` at runtime).  `castling` is the
`[[u64; Color::COUNT]; 2]` array indexed `castling[color][j]`. -/
structure ZobristKeys where
  pieces : Piece → Color → Nat → Nat
  castling : Nat → Nat → Nat
  en_passant : Nat → Nat
  black : Nat

/-- `ZobristKeys::square(square, color, piece) =
pieces[piece][color][square]`. -/
def ZobristKeys.square (keys : ZobristKeys) (sq : Nat) (color : Color)
    (piece : Piece) : Nat :=
  keys.pieces piece color sq

/-- `ZobristKeys::king_castling`: `castling[color as usize][0]`. -/
def ZobristKeys.king_castling (keys : ZobristKeys) (color : Color) : Nat :=
  keys.castling color.idx 0

/-- `ZobristKeys::queen_castling`: also `castling[color as usize][0]`
(`board.rs` line 126) — the same entry as the king-side key. -/
def ZobristKeys.queen_castling (keys : ZobristKeys) (color : Color) : Nat :=
  keys.castling color.idx 0

/-- `ZobristKeys::en_passant(square) = en_passant[square.column()]`. -/
def ZobristKeys.en_passant_key (keys : ZobristKeys) (sq : Nat) : Nat :=
  keys.en_passant (squareColumn sq)

/-- `MoveUndoState` (`board.rs` lines 28-36). -/
structure MoveUndoState where
  move : Move
  can_castle : Nat
  enpassant_square : Nat
  halfmove_clock : Nat
  fullmove_counter : Nat
  zobrist_hash : Nat
deriving DecidableEq, Repr

/-- `Board` (`board.rs` lines 15-26): per-piece and per-color occupancy
bitboards, side to move, castling-rights bitboard, en-passant bitboard,
clocks, incremental Zobrist hash and the undo stack (`Vec` order: oldest
entry first, `push` appends). -/
structure Board where
  pieces : Piece → Nat
  colors : Color → Nat
  color_to_move : Color
  can_castle : Nat
  enpassant_square : Nat
  halfmove_clock : Nat
  fullmove_counter : Nat
  zobrist_hash : Nat
  undo_data : List MoveUndoState

/-- Pointwise function update (array element assignment). -/
def fupdate {α : Type} [DecidableEq α] (f : α → Nat) (k : α) (v : Nat) :
    α → Nat :=
  fun x => if x = k then v else f x

/-- `arr[k] ^= m` on a function-modelled array. -/
def xtoggle {α : Type} [DecidableEq α] (k : α) (m : Nat) (f : α → Nat) :
    α → Nat :=
  fupdate f k (f k ^^^ m)

/-- `self.pieces[p] ^= mask`. -/
def Board.xor_piece (b : Board) (p : Piece) (mask : Nat) : Board :=
  { b with pieces := xtoggle p mask b.pieces }

/-- `self.colors[c] ^= mask`. -/
def Board.xor_color (b : Board) (c : Color) (mask : Nat) : Board :=
  { b with colors := xtoggle c mask b.colors }

/-- `self.zobrist_hash ^= k`. -/
def Board.xor_hash (b : Board) (k : Nat) : Board :=
  { b with zobrist_hash := b.zobrist_hash ^^^ k }

/-- White king-side castling-rights bits (`e1 | h1`, the `bitboard!`
constant of `can_castle_kingside`). -/
def WHITE_KINGSIDE : Nat := 0x09

/-- Black king-side castling-rights bits (`e8 | h8`). -/
def BLACK_KINGSIDE : Nat := 0x09 <<< 56

/-- White queen-side castling-rights bits (`a1 | e1`). -/
def WHITE_QUEENSIDE : Nat := 0x88

/-- Black queen-side castling-rights bits (`a8 | e8`). -/
def BLACK_QUEENSIDE : Nat := 0x88 <<< 56

/-- `Board::can_castle_kingside`. -/
def Board.can_castle_kingside (b : Board) (color : Color) : Bool :=
  let bb := match color with
    | .Black => BLACK_KINGSIDE
    | .White => WHITE_KINGSIDE
  b.can_castle &&& bb = bb

/-- `Board::can_castle_queenside`. -/
def Board.can_castle_queenside (b : Board) (color : Color) : Bool :=
  let bb := match color with
    | .Black => BLACK_QUEENSIDE
    | .White => WHITE_QUEENSIDE
  b.can_castle &&& bb = bb

/-- `Board::toggle_castling_hashes` (`board.rs` lines 719-732): XOR the
key of each currently-live castling right into the hash (the conditional
XORs are written on the hash value so that the board shape stays
unconditional). -/
def Board.toggle_castling_hashes (keys : ZobristKeys) (b : Board) : Board :=
  let h := b.zobrist_hash
  let h := if b.can_castle_kingside .White then
      h ^^^ keys.king_castling .White else h
  let h := if b.can_castle_kingside .Black then
      h ^^^ keys.king_castling .Black else h
  let h := if b.can_castle_queenside .White then
      h ^^^ keys.queen_castling .White else h
  let h := if b.can_castle_queenside .Black then
      h ^^^ keys.queen_castling .Black else h
  { b with zobrist_hash := h }

/-- `Board::disable_ep` (`board.rs` lines 734-740): XOR out the ep-file
key when an ep square is set, then clear the ep square. -/
def Board.disable_ep (keys : ZobristKeys) (b : Board) : Board :=
  { b with
      zobrist_hash :=
        if b.enpassant_square ≠ 0 then
          b.zobrist_hash ^^^
            keys.en_passant_key (firstIdxD b.enpassant_square)
        else b.zobrist_hash,
      enpassant_square := 0 }

/-- `Board::make_move_unguarded` (`board.rs` lines 506-710), arm for arm:
push the undo record, bump the clocks, toggle the occupancy bitboards and
the Zobrist keys for the move variant, update castling rights between the
two `toggle_castling_hashes` calls, handle the en-passant state, flip the
side to move and XOR the side key. -/
def Board.make_move_unguarded (keys : ZobristKeys) (b : Board) (m : Move) :
    Board :=
  let undo_state : MoveUndoState :=
    { move := m, can_castle := b.can_castle,
      enpassant_square := b.enpassant_square,
      halfmove_clock := b.halfmove_clock,
      fullmove_counter := b.fullmove_counter,
      zobrist_hash := b.zobrist_hash }
  let b := { b with halfmove_clock := b.halfmove_clock + 1 }
  let b := { b with
      fullmove_counter :=
        if b.color_to_move = Color.Black then b.fullmove_counter + 1
        else b.fullmove_counter }
  let b :=
    match m with
    | .Normal from_square to_square captured_piece moved_piece =>
      let b :=
        match captured_piece with
        | some cp =>
          ((b.xor_color b.color_to_move.opposite to_square).xor_piece cp
            to_square).xor_hash
            (keys.square (firstIdxD to_square) b.color_to_move.opposite cp)
        | none => b
      let b :=
        ((b.xor_color b.color_to_move (to_square ||| from_square)).xor_piece
          moved_piece (to_square ||| from_square)).xor_hash
          (keys.square (firstIdxD to_square) b.color_to_move moved_piece ^^^
            keys.square (firstIdxD from_square) b.color_to_move moved_piece)
      let b := b.disable_ep keys
      let b := b.toggle_castling_hashes keys
      let b := { b with
        can_castle := b.can_castle &&& not64 to_square &&& not64 from_square }
      let b := b.toggle_castling_hashes keys
      { b with
          halfmove_clock :=
            if captured_piece.isSome || moved_piece = Piece.Pawn then 0
            else b.halfmove_clock }
    | .DoublePawn from_square to_square =>
      let b :=
        ((b.xor_color b.color_to_move (from_square ||| to_square)).xor_piece
          .Pawn (from_square ||| to_square)).xor_hash
          (keys.square (firstIdxD to_square) b.color_to_move .Pawn ^^^
            keys.square (firstIdxD from_square) b.color_to_move .Pawn)
      let b := b.disable_ep keys
      let new_ep_square := (firstIdxD from_square + firstIdxD to_square) / 2
      let b := { b with enpassant_square := 1 <<< new_ep_square }
      let b := b.xor_hash (keys.en_passant_key new_ep_square)
      { b with halfmove_clock := 0 }
    | .EnPassant from_square to_square =>
      let captured_pawn :=
        match b.color_to_move with
        | .White => wrapping_shift to_square .South 1
        | .Black => wrapping_shift to_square .North 1
      let b :=
        ((b.xor_color b.color_to_move (from_square ||| to_square)).xor_piece
          .Pawn (from_square ||| to_square)).xor_hash
          (keys.square (firstIdxD from_square) b.color_to_move .Pawn ^^^
            keys.square (firstIdxD to_square) b.color_to_move .Pawn)
      let b :=
        ((b.xor_color b.color_to_move.opposite captured_pawn).xor_piece .Pawn
          captured_pawn).xor_hash
          (keys.square (firstIdxD captured_pawn) b.color_to_move.opposite
            .Pawn)
      let b := b.xor_hash
        (keys.en_passant_key (firstIdxD b.enpassant_square))
      let b := { b with enpassant_square := 0 }
      { b with halfmove_clock := 0 }
    | .Promotion from_square to_square promotion_piece captured_piece =>
      let b :=
        match captured_piece with
        | some cp =>
          ((b.xor_color b.color_to_move.opposite to_square).xor_piece cp
            to_square).xor_hash
            (keys.square (firstIdxD to_square) b.color_to_move.opposite cp)
        | none => b
      let b :=
        ((b.xor_piece .Pawn from_square).xor_color b.color_to_move
          from_square).xor_hash
          (keys.square (firstIdxD from_square) b.color_to_move .Pawn)
      let b :=
        ((b.xor_piece promotion_piece to_square).xor_color b.color_to_move
          to_square).xor_hash
          (keys.square (firstIdxD to_square) b.color_to_move promotion_piece)
      let b := b.disable_ep keys
      let b := b.toggle_castling_hashes keys
      let b := { b with
        can_castle := b.can_castle &&& not64 to_square &&& not64 from_square }
      let b := b.toggle_castling_hashes keys
      { b with halfmove_clock := 0 }
    | .Castle from_square to_square rook_from_square rook_to_square =>
      let b :=
        ((b.xor_piece .King (from_square ||| to_square)).xor_color
          b.color_to_move (from_square ||| to_square)).xor_hash
          (keys.square (firstIdxD from_square) b.color_to_move .King ^^^
            keys.square (firstIdxD to_square) b.color_to_move .King)
      let b :=
        ((b.xor_piece .Rook (rook_from_square ||| rook_to_square)).xor_color
          b.color_to_move (rook_from_square ||| rook_to_square)).xor_hash
          (keys.square (firstIdxD rook_from_square) b.color_to_move .Rook ^^^
            keys.square (firstIdxD rook_to_square) b.color_to_move .Rook)
      let b := b.disable_ep keys
      let b := b.toggle_castling_hashes keys
      let b := { b with
        can_castle := b.can_castle &&& not64 to_square &&& not64 from_square }
      b.toggle_castling_hashes keys
  let b := { b with color_to_move := b.color_to_move.opposite }
  let b := b.xor_hash keys.black
  { b with undo_data := b.undo_data ++ [undo_state] }

/-- `Board::try_undo_move` (`board.rs` lines 742-836): flip the side back,
pop the undo record (restoring castling rights, en-passant, clocks and
hash), and re-apply the occupancy XOR toggles — XOR order is immaterial, so
the body mirrors `make_move`.  Returns the updated board plus the popped
move; note the source flips `color_to_move` even when the stack is empty. -/
def Board.try_undo_move (b : Board) : Board × Option Move :=
  let b := { b with color_to_move := b.color_to_move.opposite }
  match b.undo_data.getLast? with
  | none => (b, none)
  | some u =>
    let b :=
      { b with
          undo_data := b.undo_data.dropLast, can_castle := u.can_castle,
          enpassant_square := u.enpassant_square,
          halfmove_clock := u.halfmove_clock,
          fullmove_counter := u.fullmove_counter,
          zobrist_hash := u.zobrist_hash }
    let b :=
      match u.move with
      | .Normal from_square to_square captured_piece moved_piece =>
        let b :=
          match captured_piece with
          | some cp =>
            (b.xor_color b.color_to_move.opposite to_square).xor_piece cp
              to_square
          | none => b
        (b.xor_color b.color_to_move (to_square ||| from_square)).xor_piece
          moved_piece (to_square ||| from_square)
      | .DoublePawn from_square to_square =>
        (b.xor_color b.color_to_move (from_square ||| to_square)).xor_piece
          .Pawn (from_square ||| to_square)
      | .EnPassant from_square to_square =>
        let captured_pawn :=
          match b.color_to_move with
          | .White => wrapping_shift to_square .South 1
          | .Black => wrapping_shift to_square .North 1
        let b :=
          (b.xor_color b.color_to_move (from_square ||| to_square)).xor_piece
            .Pawn (from_square ||| to_square)
        (b.xor_color b.color_to_move.opposite captured_pawn).xor_piece .Pawn
          captured_pawn
      | .Promotion from_square to_square promotion_piece captured_piece =>
        let b :=
          match captured_piece with
          | some cp =>
            (b.xor_color b.color_to_move.opposite to_square).xor_piece cp
              to_square
          | none => b
        let b :=
          (b.xor_piece .Pawn from_square).xor_color b.color_to_move
            from_square
        (b.xor_piece promotion_piece to_square).xor_color b.color_to_move
          to_square
      | .Castle from_square to_square rook_from_square rook_to_square =>
        let b :=
          (b.xor_piece .King (from_square ||| to_square)).xor_color
            b.color_to_move (from_square ||| to_square)
        (b.xor_piece .Rook (rook_from_square ||| rook_to_square)).xor_color
          b.color_to_move (rook_from_square ||| rook_to_square)
    (b, some u.move)

/-- `Board::make_null_move_unguarded` (`board.rs` lines 874-876): flip the
side to move and nothing else. -/
def Board.make_null_move_unguarded (b : Board) : Board :=
  { b with color_to_move := b.color_to_move.opposite }

/-- `Board::undo_null_move` (`board.rs` lines 883-885). -/
def Board.undo_null_move (b : Board) : Board :=
  { b with color_to_move := b.color_to_move.opposite }

/-- `Board::is_draw_50`. -/
def Board.is_draw_50 (b : Board) : Bool :=
  100 ≤ b.halfmove_clock

/-- The loop body of `Board::is_draw_repetition` (`board.rs` lines
475-504): iterate the undo entries in `Vec` order (oldest first!), break at
the first entry whose move is a capture, `DoublePawn`, `EnPassant`,
`Castle` or `Promotion`, and return `true` on the second hash match. -/
def isDrawRepetitionGo (hash : Nat) : List MoveUndoState → Bool → Bool
  | [], _ => false
  | u :: rest, already_found =>
    let stop :=
      match u.move with
      | .Normal _ _ captured_piece _ => captured_piece.isSome
      | .DoublePawn _ _ => true
      | .EnPassant _ _ => true
      | .Castle _ _ _ _ => true
      | .Promotion _ _ _ _ => true
    if stop then false
    else if hash = u.zobrist_hash then
      if already_found then true
      else isDrawRepetitionGo hash rest true
    else isDrawRepetitionGo hash rest already_found

/-- `Board::is_draw_repetition`. -/
def Board.is_draw_repetition (b : Board) : Bool :=
  isDrawRepetitionGo b.zobrist_hash b.undo_data false

/-- `make_move` over a move list (left fold, oldest move first). -/
def applyMoves (keys : ZobristKeys) (b : Board) (ms : List Move) : Board :=
  ms.foldl (Board.make_move_unguarded keys) b

/-- `try_undo_move` iterated `n` times. -/
def undoN (b : Board) : Nat → Board
  | 0 => b
  | n + 1 => undoN b.try_undo_move.1 n

/-- Concrete injective Zobrist keys (distinct powers of two per feature),
standing in for the runtime PRNG table. -/
def demoKeys : ZobristKeys :=
  { pieces := fun p c sq => 1 <<< (sq % 64 + 64 * (c.idx + 2 * p.idx))
    castling := fun i j => 1 <<< (768 + 2 * (i % 2) + j % 2)
    en_passant := fun f => 1 <<< (772 + f % 8)
    black := 1 <<< 780 }

/-- The Zobrist hash `Board::from_fen` accumulates on the starting FEN:
one key per occupied square plus the four castling-right keys (white to
move, no ep square). -/
def startHash (keys : ZobristKeys) : Nat :=
  let backRank : List Piece :=
    [.Rook, .Knight, .Bishop, .King, .Queen, .Bishop, .Knight, .Rook]
  let h := (List.range 8).foldl
    (fun h i =>
      h ^^^ keys.square i .White (backRank.getD i .Pawn) ^^^
        keys.square (i + 8) .White .Pawn ^^^
        keys.square (i + 48) .Black .Pawn ^^^
        keys.square (i + 56) .Black (backRank.getD i .Pawn))
    0
  h ^^^ keys.queen_castling .Black ^^^ keys.queen_castling .White ^^^
    keys.king_castling .Black ^^^ keys.king_castling .White

/-- The board `Board::starting_position` produces (the parse of
`rnbqkbnr/pppppppp/8/8/8/8/PPPPPPPP/RNBQKBNR w KQkq - 0 1`), written as
the resulting field values: square 0 is h1, square 63 is a8. -/
def startingPosition (keys : ZobristKeys) : Board :=
  { pieces := fun p =>
      match p with
      | .Pawn => 0x00FF00000000FF00
      | .Bishop => 0x2400000000000024
      | .Knight => 0x4200000000000042
      | .Rook => 0x8100000000000081
      | .Queen => 0x1000000000000010
      | .King => 0x0800000000000008
    colors := fun c =>
      match c with
      | .White => 0xFFFF
      | .Black => 0xFFFF000000000000
    color_to_move := .White
    can_castle := 0x8900000000000089
    enpassant_square := 0
    halfmove_clock := 0
    fullmove_counter := 1
    zobrist_hash := startHash keys
    undo_data := [] }

/-- `1. e4 e5 2. Nf3` followed by both knights retreating and returning
twice: e2e4, e7e5, Ng1f3, Ng8f6, Nf3g1, Nf6g8, Ng1f3, Ng8f6, Nf3g1,
Nf6g8, Ng1f3.  The position after `2. Nf3` (black to move, no ep state)
occurs after plies 3, 7 and 11, but the two pawn moves sit at the bottom
of the undo stack. -/
def shuffleAfterPawn : List Move :=
  [ .DoublePawn (1 <<< 11) (1 <<< 27),
    .DoublePawn (1 <<< 51) (1 <<< 35),
    .Normal (1 <<< 1) (1 <<< 18) none .Knight,
    .Normal (1 <<< 57) (1 <<< 42) none .Knight,
    .Normal (1 <<< 18) (1 <<< 1) none .Knight,
    .Normal (1 <<< 42) (1 <<< 57) none .Knight,
    .Normal (1 <<< 1) (1 <<< 18) none .Knight,
    .Normal (1 <<< 57) (1 <<< 42) none .Knight,
    .Normal (1 <<< 18) (1 <<< 1) none .Knight,
    .Normal (1 <<< 42) (1 <<< 57) none .Knight,
    .Normal (1 <<< 1) (1 <<< 18) none .Knight ]

/-- Irreversibility as the spec words it: "any capture, pawn move,
castle, or ep". -/
def spec_irreversible : Move → Bool
  | .Normal _ _ captured_piece moved_piece =>
    captured_piece.isSome || moved_piece = .Pawn
  | .DoublePawn _ _ => true
  | .EnPassant _ _ => true
  | .Castle _ _ _ _ => true
  | .Promotion _ _ _ _ => true

/-- Walk kernel for the spec's repetition rule, over the undo entries in
most-recent-first order. -/
def specRepetitionGo (hash : Nat) : List MoveUndoState → Bool → Bool
  | [], _ => false
  | u :: rest, already_found =>
    if spec_irreversible u.move then false
    else if hash = u.zobrist_hash then
      if already_found then true
      else specRepetitionGo hash rest true
    else specRepetitionGo hash rest already_found

/-- Modelled from the spec: "walking back through the undo stack, count
positions whose Zobrist hash equals the current hash. Stop walking as soon
as an irreversible move is encountered (any capture, pawn move, castle, or
ep). If two prior matches are found before stopping, the current position
counts as a third occurrence."  The walk starts at the most recent undo
entry (the reverse of the stored `Vec` order). -/
def spec_is_draw_repetition (b : Board) : Bool :=
  specRepetitionGo b.zobrist_hash b.undo_data.reverse false

/-- Fuel-bounded `while let Some(i) = bb.bitscan_index()` index sequence
(ascending set-bit indices; 64 units of fuel cover every `u64`). -/
def bitscanIdxAux : Nat → Nat → List Nat
  | 0, _ => []
  | fuel + 1, bb =>
    if bb = 0 then []
    else tz bb :: bitscanIdxAux fuel (bb &&& (bb - 1))

/-- The set-bit indices of a bitboard in bitscan (ascending) order. -/
def bitscanIndices (bb : Nat) : List Nat := bitscanIdxAux 64 bb

/-- The single-bit masks of a bitboard in bitscan (ascending) order
(`while let Some(target) = bb.bitscan()`). -/
def bitscanBits (bb : Nat) : List Nat :=
  (bitscanIndices bb).map (fun i => 1 <<< i)

/-- `a.wrapping_sub(b)` on `u64`. -/
def wsub64 (a b : Nat) : Nat := (a + (2 ^ 64 - b % 2 ^ 64)) % 2 ^ 64

/-- `a + b` on `u64` (wrapping model). -/
def wadd64 (a b : Nat) : Nat := (a + b) % 2 ^ 64

/-- `a.wrapping_mul(b)` on `u64`. -/
def wmul64 (a b : Nat) : Nat := a * b % 2 ^ 64

/-- `b.wrapping_neg()` on `u64`. -/
def wneg64 (b : Nat) : Nat := (2 ^ 64 - b % 2 ^ 64) % 2 ^ 64

/-- `Board::get_piece_bitboard_colorless`. -/
def Board.get_piece_bitboard_colorless (b : Board) (p : Piece) : Nat :=
  b.pieces p

/-- `Board::get_color_bitboard`. -/
def Board.get_color_bitboard (b : Board) (c : Color) : Nat :=
  b.colors c

/-- `Board::all_piece_bitboard`. -/
def Board.all_piece_bitboard (b : Board) : Nat :=
  b.get_color_bitboard .White ||| b.get_color_bitboard .Black

/-- `Board::pawns`. -/
def Board.pawns (b : Board) (c : Color) : Nat := b.pieces .Pawn &&& b.colors c

/-- `Board::bishops`. -/
def Board.bishops (b : Board) (c : Color) : Nat :=
  b.pieces .Bishop &&& b.colors c

/-- `Board::knights`. -/
def Board.knights (b : Board) (c : Color) : Nat :=
  b.pieces .Knight &&& b.colors c

/-- `Board::rooks`. -/
def Board.rooks (b : Board) (c : Color) : Nat := b.pieces .Rook &&& b.colors c

/-- `Board::queens`. -/
def Board.queens (b : Board) (c : Color) : Nat :=
  b.pieces .Queen &&& b.colors c

/-- `Board::king`. -/
def Board.king (b : Board) (c : Color) : Nat := b.pieces .King &&& b.colors c

/-- `Board::get_piece_from_bitboard`: the first piece kind whose bitboard
meets `bb`. -/
def Board.get_piece_from_bitboard (b : Board) (bb : Nat) : Option Piece :=
  Piece.ALL.find? (fun piece => b.pieces piece &&& bb ≠ 0)

/-- `MoveGenerator::occluded_fill` (Kogge-Stone, `move_generator.rs` lines
249-261). -/
def occluded_fill (seeds blockers : Nat) (dir : Direction) : Nat :=
  let propagators := prevent_wrapping (not64 blockers) dir.opposite
  let seeds := seeds ||| (propagators &&& wrapping_shift seeds dir 1)
  let propagators := propagators &&& wrapping_shift propagators dir 1
  let seeds := seeds ||| (propagators &&& wrapping_shift seeds dir 2)
  let propagators := propagators &&& wrapping_shift propagators dir 2
  seeds ||| (propagators &&& wrapping_shift seeds dir 4)

/-- `MoveGenerator::pinned_pieces` (`move_generator.rs` lines 177-214). -/
def pinned_pieces (b : Board) (blockers piece : Nat) (dir : Direction) :
    Nat :=
  let targets := bbShift (occluded_fill piece blockers dir) dir
  let attacks := targets &&& blockers
  let blockers := blockers ^^^ attacks
  let xrayed_squares := bbShift (occluded_fill piece blockers dir) dir
  let endpoints := xrayed_squares &&& blockers
  let sliders_in_dir :=
    match dir with
    | .North | .East | .South | .West =>
      b.queens b.color_to_move.opposite ||| b.rooks b.color_to_move.opposite
    | .NorthEast | .NorthWest | .SouthEast | .SouthWest =>
      b.queens b.color_to_move.opposite |||
        b.bishops b.color_to_move.opposite
  if endpoints &&& sliders_in_dir = 0 then 0 else xrayed_squares

/-- The `SQUARES_IN_BETWEEN` pure-calculation formula
(`move_generator.rs` lines 40-68), with explicit `u64` wrapping. -/
def inBetween (sq1 sq2 : Nat) : Nat :=
  let m1 : Nat := 0xFFFFFFFFFFFFFFFF
  let a2a7 : Nat := 0x0001010101010100
  let b2g7 : Nat := 0x0040201008040200
  let h1b7 : Nat := 0x0002040810204080
  let btwn := ((m1 <<< sq1) ^^^ (m1 <<< sq2)) % 2 ^ 64
  let file := wsub64 (sq2 &&& 7) (sq1 &&& 7)
  let rank := wsub64 (sq2 ||| 7) sq1 >>> 3
  let line := wsub64 (file &&& 7) 1 &&& a2a7
  let line := wadd64 line (wmul64 2 (wsub64 (rank &&& 7) 1 >>> 58))
  let line := wadd64 line (wsub64 (wsub64 rank file &&& 15) 1 &&& b2g7)
  let line := wadd64 line (wsub64 (wadd64 rank file &&& 15) 1 &&& h1b7)
  let line := wmul64 line (btwn &&& wneg64 btwn)
  line &&& btwn

/-- The `MoveGenerator` struct (`move_generator.rs` lines 11-21); the
`ALL_MOVES` const generic becomes an argument of the generation
functions. -/
structure MoveGenerator where
  attacks_from_square : Nat → Nat
  attacks_to_square : Nat → Nat
  attacked_squares : Nat
  allowed_targets : Nat → Nat
  is_double_check : Bool
  is_check : Bool

/-- The inner `while let Some(target_index) = bb.bitscan_index()` loop of
`with_attacks`: OR the attacker bit `1 << i` into `attacks_to_square` at
each target square of `bb` (fuel-bounded like every bitscan loop). -/
def addAttacksFrom : Nat → Nat → Nat → (Nat → Nat) → (Nat → Nat)
  | 0, _, _, toMap => toMap
  | fuel + 1, i, bb, toMap =>
    if bb = 0 then toMap
    else
      addAttacksFrom fuel i (bb &&& (bb - 1))
        (fupdate toMap (tz bb) (toMap (tz bb) ||| (1 <<< i)))

/-- The `attacks_to_square` construction of `with_attacks` (lines 84-91):
fold the inner loop over the 64 per-square attack sets. -/
def buildAttacksTo (afs : Nat → Nat) : Nat → Nat :=
  (List.range 64).foldl (fun toMap i => addAttacksFrom 64 i (afs i) toMap)
    (fun _ => 0)

/-- The `reduce(|a, b| a | b)` recomputation of `attacked_squares`
(`with_attacks` lines 133-137). -/
def foldOrAttacks (afs : Nat → Nat) : Nat :=
  (List.range 64).foldl (fun acc i => acc ||| afs i) 0

/-- The pin-restriction pass of `with_attacks` (lines 124-131): for each
direction, AND the pinned-ray mask into `allowed_targets` at every pinned
square. -/
def applyPins (b : Board) (blockers king : Nat) (restr : Nat → Nat) :
    Nat → Nat :=
  Direction.ALL.foldl
    (fun restr dir =>
      let pinned_squares := pinned_pieces b blockers king dir
      (bitscanIndices pinned_squares).foldl
        (fun r sq => fupdate r sq (r sq &&& pinned_squares)) restr)
    restr

/-- The classification tail of `MoveGenerator::with_attacks`
(`move_generator.rs` lines 84-147), taking the precomputed
`attacks_from_square` array as input: build `attacks_to_square`, classify
the check state from the king-square attackers (0 / ≥2 / knight / slider),
apply pin restrictions and recompute `attacked_squares`. -/
def MoveGenerator.classify (b : Board) (afs : Nat → Nat) : MoveGenerator :=
  let attacks_to_square := buildAttacksTo afs
  let king := b.king b.color_to_move
  let king_square := firstIdxD king
  let king_attackers := attacks_to_square king_square
  let class3 : Bool × Bool × Nat :=
    if king_attackers = 0 then (false, false, not64 0)
    else if 2 ≤ countOnes king_attackers then (true, true, 0)
    else
      let attacking_knights :=
        king_attackers &&& b.get_piece_bitboard_colorless .Knight
      if attacking_knights ≠ 0 then (false, true, attacking_knights)
      else
        (false, true,
          inBetween king_square (firstIdxD king_attackers) ||| king_attackers)
  let blockers := b.all_piece_bitboard
  let target_restrictions := applyPins b blockers king (fun _ => class3.2.2)
  let attacked_squares := foldOrAttacks afs
  { attacks_from_square := afs, attacks_to_square, attacked_squares,
    allowed_targets := target_restrictions, is_double_check := class3.1,
    is_check := class3.2.1 }

/-- `MoveGenerator::targets_to_moves` (`move_generator.rs` lines 216-246):
non-captures (only when `ALL_MOVES`) then captures, all as `Normal` moves
of the given piece. -/
def targets_to_moves (allM : Bool) (origin : Nat) (moved_piece : Piece)
    (targets : Nat) (b : Board) : List Move :=
  let non_captures :=
    if allM then
      (bitscanBits (targets &&& not64 b.all_piece_bitboard)).map
        (fun target => Move.Normal origin target none moved_piece)
    else []
  let captures :=
    (bitscanBits
        (targets &&& b.get_color_bitboard b.color_to_move.opposite)).map
      (fun target =>
        Move.Normal origin target
          (some ((b.get_piece_from_bitboard target).getD .Pawn)) moved_piece)
  non_captures ++ captures

/-- `MoveGenerator::generate_king_targets`. -/
def generate_king_targets (king : Nat) : Nat :=
  let middle_row := bbShift king .West ||| king ||| bbShift king .East
  let targets :=
    bbShift middle_row .North ||| middle_row ||| bbShift middle_row .South
  targets ^^^ king

/-- `MoveGenerator::generate_king_moves` (`move_generator.rs` lines
277-322): king steps onto unattacked squares, plus (when `ALL_MOVES`) the
two castles guarded by the attacked-mask and emptiness checks. -/
def MoveGenerator.generate_king_moves (mg : MoveGenerator) (allM : Bool)
    (b : Board) : List Move :=
  let king := b.king b.color_to_move
  let targets := generate_king_targets king &&& not64 mg.attacked_squares
  let base := targets_to_moves allM king .King targets b
  if allM then
    let kingside :=
      if b.can_castle_kingside b.color_to_move then
        let king_move_mask := king ||| wrapping_shift king .East 1 |||
          wrapping_shift king .East 2
        let clear_mask := wrapping_shift king .East 1 |||
          wrapping_shift king .East 2
        if king_move_mask &&& mg.attacked_squares = 0 ∧
            clear_mask &&& b.all_piece_bitboard = 0 then
          [Move.Castle king (wrapping_shift king .East 2)
            (wrapping_shift king .East 3) (wrapping_shift king .East 1)]
        else []
      else []
    let queenside :=
      if b.can_castle_queenside b.color_to_move then
        let king_move_mask := king ||| wrapping_shift king .West 1 |||
          wrapping_shift king .West 2
        let clear_mask := wrapping_shift king .West 1 |||
          wrapping_shift king .West 2 ||| wrapping_shift king .West 3
        if king_move_mask &&& mg.attacked_squares = 0 ∧
            clear_mask &&& b.all_piece_bitboard = 0 then
          [Move.Castle king (wrapping_shift king .West 2)
            (wrapping_shift king .West 4) (wrapping_shift king .West 1)]
        else []
      else []
    base ++ kingside ++ queenside
  else base

/-- The magic-bitboard slider lookups (`rook_magic_bitboard` /
`bishop_magic_bitboard`), abstracted over the startup-built tables:
square index and occupancy to attack set. -/
structure MagicTables where
  rook : Nat → Nat → Nat
  bishop : Nat → Nat → Nat

/-- `MoveGenerator::generate_rook_moves`. -/
def MoveGenerator.generate_rook_moves (mg : MoveGenerator)
    (tables : MagicTables) (allM : Bool) (b : Board) : List Move :=
  (bitscanIndices (b.rooks b.color_to_move)).foldl
    (fun moves single_piece =>
      let occupancy := b.all_piece_bitboard
      let targets := tables.rook single_piece occupancy &&&
        mg.allowed_targets single_piece &&&
        not64 (b.get_color_bitboard b.color_to_move)
      moves ++ targets_to_moves allM (1 <<< single_piece) .Rook targets b)
    []

/-- `MoveGenerator::generate_bishop_moves`. -/
def MoveGenerator.generate_bishop_moves (mg : MoveGenerator)
    (tables : MagicTables) (allM : Bool) (b : Board) : List Move :=
  (bitscanIndices (b.bishops b.color_to_move)).foldl
    (fun moves single_piece =>
      let occupancy := b.all_piece_bitboard
      let targets := tables.bishop single_piece occupancy &&&
        mg.allowed_targets single_piece &&&
        not64 (b.get_color_bitboard b.color_to_move)
      moves ++ targets_to_moves allM (1 <<< single_piece) .Bishop targets b)
    []

/-- `MoveGenerator::generate_queen_moves`. -/
def MoveGenerator.generate_queen_moves (mg : MoveGenerator)
    (tables : MagicTables) (allM : Bool) (b : Board) : List Move :=
  (bitscanIndices (b.queens b.color_to_move)).foldl
    (fun moves single_piece =>
      let occupancy := b.all_piece_bitboard
      let targets :=
        (tables.bishop single_piece occupancy |||
            tables.rook single_piece occupancy) &&&
          mg.allowed_targets single_piece &&&
          not64 (b.get_color_bitboard b.color_to_move)
      moves ++ targets_to_moves allM (1 <<< single_piece) .Queen targets b)
    []

/-- `MoveGenerator::generate_knight_targets`: the source's per-square LUT
entry, computed by the same shift formula it is built from. -/
def generate_knight_targets (knight : Nat) : Nat :=
  let sq := firstIdxD knight
  let k := 1 <<< sq
  let top_bottom_initial := bbShift k .East ||| bbShift k .West
  let left_right_initial :=
    bbShift (bbShift k .East) .East ||| bbShift (bbShift k .West) .West
  bbShift (bbShift top_bottom_initial .North ||| left_right_initial)
      .North |||
    bbShift (bbShift top_bottom_initial .South ||| left_right_initial) .South

/-- `MoveGenerator::generate_knight_moves`. -/
def MoveGenerator.generate_knight_moves (mg : MoveGenerator) (allM : Bool)
    (b : Board) : List Move :=
  (bitscanBits (b.knights b.color_to_move)).foldl
    (fun moves knight =>
      let targets := generate_knight_targets knight &&&
        mg.allowed_targets (firstIdxD knight)
      moves ++ targets_to_moves allM knight .Knight targets b)
    []

/-- The per-pawn en-passant block of `generate_pawn_moves`
(`move_generator.rs` lines 603-644), including the horizontal
discovered-check scan. -/
def pawnEnPassant (mg : MoveGenerator) (b : Board) (pawn attack_targets : Nat)
    (forwards : Direction) : List Move :=
  match firstPieceIndex (attack_targets &&& b.enpassant_square) with
  | none => []
  | some target_index =>
    let target := 1 <<< target_index
    let captured_pawn := wrapping_shift target forwards.opposite 1
    if mg.allowed_targets (firstIdxD pawn) &&& captured_pawn ≠ 0 then
      let king := b.king b.color_to_move
      let king_square := firstIdxD king
      let pawn_square := firstIdxD pawn
      if squareRow king_square = squareRow pawn_square then
        let both_pawns := captured_pawn ||| pawn
        let sliders := b.rooks b.color_to_move.opposite |||
          b.queens b.color_to_move.opposite
        let blockers := b.all_piece_bitboard ^^^ both_pawns
        let pin_line :=
          if squareColumn king_square < squareColumn pawn_square then
            bbShift (occluded_fill king blockers .West) .West
          else bbShift (occluded_fill king blockers .East) .East
        if pin_line &&& sliders = 0 then [Move.EnPassant pawn target]
        else []
      else [Move.EnPassant pawn target]
    else []

/-- `MoveGenerator::generate_pawn_moves` (`move_generator.rs` lines
490-666): pushes, double pushes, promotions (when `ALL_MOVES`), the
en-passant block, then captures and capture-promotions, per pawn in
bitscan order. -/
def MoveGenerator.generate_pawn_moves (mg : MoveGenerator) (allM : Bool)
    (b : Board) : List Move :=
  let forwards : Direction :=
    match b.color_to_move with
    | .White => .North
    | .Black => .South
  let forwards_west : Direction :=
    match b.color_to_move with
    | .White => .NorthWest
    | .Black => .SouthWest
  let forwards_east : Direction :=
    match b.color_to_move with
    | .White => .NorthEast
    | .Black => .SouthEast
  let shifted_baseline : Nat :=
    match b.color_to_move with
    | .White => 0x0000000000FF0000
    | .Black => 0x0000FF0000000000
  let promotion_line : Nat :=
    match b.color_to_move with
    | .White => 0xFF00000000000000
    | .Black => 0x00000000000000FF
  (bitscanBits (b.pawns b.color_to_move)).foldl
    (fun moves pawn =>
      let pawn_index := firstIdxD pawn
      let targets := bbShift pawn forwards &&& not64 b.all_piece_bitboard
      let double_targets :=
        bbShift (targets &&& shifted_baseline) forwards &&&
          not64 b.all_piece_bitboard &&& mg.allowed_targets pawn_index
      let targets := targets &&& mg.allowed_targets pawn_index
      let attack_targets :=
        bbShift pawn forwards_west ||| bbShift pawn forwards_east
      let attacks := attack_targets &&&
        b.get_color_bitboard b.color_to_move.opposite &&&
        mg.allowed_targets pawn_index
      let promotion_targets := targets &&& promotion_line
      let normal_targets := targets &&& not64 promotion_line
      let promotion_attacks := attacks &&& promotion_line
      let normal_attacks := attacks &&& not64 promotion_line
      let pushes :=
        if allM then
          (bitscanBits normal_targets).map
            (fun target => Move.Normal pawn target none .Pawn) ++
          (bitscanBits double_targets).map
            (fun target => Move.DoublePawn pawn target) ++
          (bitscanBits promotion_targets).flatMap
            (fun target =>
              [Piece.Bishop, .Knight, .Rook, .Queen].map
                (fun promotion_piece =>
                  Move.Promotion pawn target promotion_piece none))
        else []
      let ep := pawnEnPassant mg b pawn attack_targets forwards
      let caps :=
        (bitscanBits normal_attacks).map
          (fun target =>
            Move.Normal pawn target
              (some ((b.get_piece_from_bitboard target).getD .Pawn)) .Pawn)
      let promo_caps :=
        (bitscanBits promotion_attacks).flatMap
          (fun target =>
            [Piece.Bishop, .Knight, .Rook, .Queen].map
              (fun promotion_piece =>
                Move.Promotion pawn target promotion_piece
                  (some ((b.get_piece_from_bitboard target).getD .Pawn))))
      moves ++ pushes ++ ep ++ caps ++ promo_caps)
    []

/-- `MoveGenerator::generate_all_moves` (`move_generator.rs` lines
149-168): all piece generators in source order unless double-checked, in
which case only king moves are generated. -/
def MoveGenerator.generate_all_moves (mg : MoveGenerator)
    (tables : MagicTables) (allM : Bool) (b : Board) : List Move :=
  if ¬mg.is_double_check then
    mg.generate_pawn_moves allM b ++
      mg.generate_bishop_moves tables allM b ++
      mg.generate_knight_moves allM b ++
      mg.generate_rook_moves tables allM b ++
      mg.generate_queen_moves tables allM b ++
      mg.generate_king_moves allM b
  else
    mg.generate_king_moves allM b

/-- Concrete board for the C7 witness: a lone white king on square 4
with both castling-rights flags raised. -/
def demoDoubleCheckBoard : Board :=
  { pieces := fun p => match p with | .King => 1 <<< 4 | _ => 0
    colors := fun c => match c with | .White => 1 <<< 4 | .Black => 0
    color_to_move := .White
    can_castle := 0x89
    enpassant_square := 0
    halfmove_clock := 0
    fullmove_counter := 1
    zobrist_hash := 0
    undo_data := [] }

/-- Concrete attack map for the C7 witness: squares 0 and 1 both attack
the king square 4 (double check). -/
def demoAfs : Nat → Nat := fun i => if i = 0 ∨ i = 1 then 1 <<< 4 else 0

/-- Trivial slider tables for the C7 witness. -/
def demoTables : MagicTables :=
  { rook := fun _ _ => 0, bishop := fun _ _ => 0 }

/-- `EventTracker` (`search.rs`). -/
structure EventTracker where
  hits : Nat
  misses : Nat
deriving DecidableEq, Repr

/-- `EventTracker::hit`. -/
def EventTracker.hit (e : EventTracker) : EventTracker :=
  { e with hits := e.hits + 1 }

/-- `EventTracker::miss`. -/
def EventTracker.miss (e : EventTracker) : EventTracker :=
  { e with misses := e.misses + 1 }

/-- `SearchStats` (`search.rs`). -/
structure SearchStats where
  nodes_searched : Nat
  nodes_searched_quiescence : Nat
  transposition_hits : EventTracker
  cached_nodes : EventTracker
  first_move_prune : EventTracker
deriving DecidableEq, Repr

/-- `SearchStats::default`. -/
def SearchStats.default : SearchStats :=
  ⟨0, 0, ⟨0, 0⟩, ⟨0, 0⟩, ⟨0, 0⟩⟩

/-- `SearchExit` (`search.rs`). -/
inductive SearchExit where
  | Cancelled
deriving DecidableEq, Repr

/-- `RootSearchExit` (`search.rs`). -/
inductive RootSearchExit where
  | NoMove
deriving DecidableEq, Repr

/-- `MoveOrdering` (`search.rs` lines 190-197); `derive(Ord)` compares the
variant index first, then the payload. -/
inductive MoveOrdering where
  | QuietMove (c : CentiPawns)
  | Castle
  | Capture (c : CentiPawns)
  | Promotion (c : CentiPawns)
  | PrincipalVariation
deriving DecidableEq, Repr

/-- The `derive(Ord)` variant index of a `MoveOrdering`. -/
def MoveOrdering.variantIdx : MoveOrdering → Nat
  | .QuietMove _ => 0
  | .Castle => 1
  | .Capture _ => 2
  | .Promotion _ => 3
  | .PrincipalVariation => 4

/-- The `derive(Ord)` comparison on `MoveOrdering`. -/
def MoveOrdering.cmp : MoveOrdering → MoveOrdering → Ordering
  | .QuietMove a, .QuietMove b => compare a.val b.val
  | .Capture a, .Capture b => compare a.val b.val
  | .Promotion a, .Promotion b => compare a.val b.val
  | a, b => compare a.variantIdx b.variantIdx

/-- `-c` on `CentiPawns` (`self * -1`). -/
def CentiPawns.neg (c : CentiPawns) : CentiPawns := c.mul (-1)

/-- `MoveOrdering::score_move` (`search.rs` lines 212-287): the TT best
move scores `PrincipalVariation`; otherwise score by variant with the
attacked-destination penalties. -/
def score_move (m : Move) (b : Board) (attacked : Nat)
    (tt : TranspositionTable) : MoveOrdering :=
  let is_pv : Bool :=
    match tt.getByHash b.zobrist_hash with
    | some entry => entry.best_move == some m
    | none => false
  if is_pv then .PrincipalVariation
  else
    match m with
    | .Normal _ to_square captured_piece moved_piece =>
      match captured_piece, attacked &&& to_square == 0 with
      | none, true => .QuietMove ⟨0⟩
      | none, false => .QuietMove (CentiPawns.piece_value moved_piece).neg
      | some cp, true => .Capture (CentiPawns.piece_value cp)
      | some cp, false =>
        .Capture
          ((CentiPawns.piece_value cp).sub
            (CentiPawns.piece_value moved_piece))
    | .DoublePawn _ to_square =>
      if attacked &&& to_square == 0 then .QuietMove ⟨0⟩
      else .QuietMove (CentiPawns.piece_value .Pawn).neg
    | .EnPassant _ to_square =>
      if attacked &&& to_square == 0 then
        .Capture (CentiPawns.piece_value .Pawn)
      else .Capture ⟨0⟩
    | .Castle _ _ _ _ => .Castle
    | .Promotion _ to_square promotion_piece captured_piece =>
      if attacked &&& to_square == 0 then
        .Promotion
          (((CentiPawns.piece_value promotion_piece).sub
              (CentiPawns.piece_value .Pawn)).add
            ((captured_piece.map CentiPawns.piece_value).getD ⟨0⟩))
      else
        .Promotion
          ((CentiPawns.piece_value .Pawn).neg.add
            ((captured_piece.map CentiPawns.piece_value).getD ⟨0⟩))

/-- Insertion into a list sorted ascending by `le`. -/
def insertAsc {α : Type} (le : α → α → Bool) (a : α) : List α → List α
  | [] => [a]
  | x :: xs => if le a x then a :: x :: xs else x :: insertAsc le a xs

/-- Ascending insertion sort — the model of the source's unspecified-order
`sorted_unstable_by_key`. -/
def sortAsc {α : Type} (le : α → α → Bool) : List α → List α
  | [] => []
  | x :: xs => insertAsc le x (sortAsc le xs)

/-- `MoveOrdering::order_moves`: sort ascending by `score_move` and
reverse (best first). -/
def order_moves (moves : List Move) (b : Board) (attacked : Nat)
    (tt : TranspositionTable) : List Move :=
  (sortAsc
      (fun m1 m2 =>
        MoveOrdering.cmp (score_move m1 b attacked tt)
          (score_move m2 b attacked tt) ≠ .gt)
      moves).reverse

/-- What `MoveGenerator::with_attacks` provides to `search.rs`: the legal
moves, the capture subset, the check flag and the attacked-squares mask. -/
structure GenOut where
  all_moves : List Move
  captures : List Move
  is_check : Bool
  attacked_squares : Nat

/-- The ambient pieces of the search: the Zobrist keys, the move
generator, the static evaluator and the combined cancel-flag/deadline
predicate (indexed by the tick counter counting `should_exit()` calls). -/
structure SearchCtx where
  keys : ZobristKeys
  gen : Board → GenOut
  static_eval : Board → Evaluation
  shouldExit : Nat → Bool

/-- The mutable state threaded through `search`: the board, the running
statistics, the transposition table and the tick counter. -/
structure SearchState where
  board : Board
  stats : SearchStats
  tt : TranspositionTable
  tick : Nat

/-- Consume one `should_exit()` call. -/
def SearchState.bumpTick (st : SearchState) : SearchState :=
  { st with tick := st.tick + 1 }

/-- The per-move body of the quiescence capture loop (`search.rs` lines
452-475): make the move, recurse via `rec`, unmake (the `with_move` guard
runs on every path, including `?`-propagation), negate, feed the window,
break on `Prune`. -/
def quiescence_loop (keys : ZobristKeys)
    (rec : AlphaBetaWindow → SearchState →
      Except SearchExit NodeEvalSummary × SearchState) :
    List Move → Bool → AlphaBetaWindow → SearchState →
      Except SearchExit Unit × AlphaBetaWindow × SearchState
  | [], _, w, st => (.ok (), w, st)
  | m :: rest, is_first, w, st => Id.run do
    let (res, st1) := rec w.next_depth
      { st with board := st.board.make_move_unguarded keys m }
    let st2 := { st1 with board := st1.board.try_undo_move.1 }
    match res with
    | .error e => return (.error e, w, st2)
    | .ok out =>
      let eval := out.eval.neg
      let (upd, w) := w.update eval (some m)
      match upd with
      | .NewBest | .NoImprovement =>
        let st3 :=
          if is_first then
            { st2 with stats :=
              { st2.stats with
                  first_move_prune := st2.stats.first_move_prune.miss } }
          else st2
        return quiescence_loop keys rec rest false w st3
      | .Prune =>
        let st3 :=
          if is_first then
            { st2 with stats :=
              { st2.stats with
                  first_move_prune := st2.stats.first_move_prune.hit } }
          else st2
        return (.ok (), w, st3)

/-- `quiescence_search` (`search.rs` lines 407-478): cancellation check at
entry, draw check, quiescence node count, captures (stand-pat and capture
loop) or the quiet/mate/stalemate leaf results.  `fuel` bounds the
capture recursion; fuel exhaustion finalizes the window. -/
def quiescence_search (ctx : SearchCtx) :
    Nat → AlphaBetaWindow → SearchState →
      Except SearchExit NodeEvalSummary × SearchState
  | 0, w, st => (.ok w.finalize, st)
  | fuel + 1, w, st => Id.run do
    let exitNow := ctx.shouldExit st.tick
    let st := st.bumpTick
    if exitNow then return (.error .Cancelled, st)
    if st.board.is_draw_50 || st.board.is_draw_repetition then
      return (.ok w.set_draw, st)
    let st := { st with stats :=
      { st.stats with nodes_searched_quiescence :=
          st.stats.nodes_searched_quiescence + 1 } }
    let movegen := ctx.gen st.board
    let captures := movegen.captures
    if captures.isEmpty then
      let all_moves := movegen.all_moves
      if all_moves.isEmpty then
        if movegen.is_check then return (.ok w.set_loss, st)
        else return (.ok w.set_draw, st)
      else
        return (.ok (w.set_exact (ctx.static_eval st.board) none), st)
    let (upd, w) := w.update (ctx.static_eval st.board) none
    match upd with
    | .Prune => return (.ok w.finalize, st)
    | .NoImprovement | .NewBest =>
      let captures :=
        order_moves captures st.board movegen.attacked_squares st.tt
      let (res, w, st) :=
        quiescence_loop ctx.keys (quiescence_search ctx fuel) captures true
          w st
      match res with
      | .error e => return (.error e, st)
      | .ok () => return (.ok w.finalize, st)

/-- The per-move body of the main search loop (`search.rs` lines 369-393):
make, recurse via `rec` (one depth shallower), unmake, negate, feed the
window, track first-move prunes, break on `Prune`. -/
def search_loop (keys : ZobristKeys)
    (rec : AlphaBetaWindow → SearchState →
      Except SearchExit NodeEvalSummary × SearchState) :
    List Move → Bool → AlphaBetaWindow → SearchState →
      Except SearchExit Unit × AlphaBetaWindow × SearchState
  | [], _, w, st => (.ok (), w, st)
  | m :: rest, is_first, w, st => Id.run do
    let (res, st1) := rec w.next_depth
      { st with board := st.board.make_move_unguarded keys m }
    let st2 := { st1 with board := st1.board.try_undo_move.1 }
    match res with
    | .error e => return (.error e, w, st2)
    | .ok out =>
      let eval := out.eval.neg
      let (upd, w) := w.update eval (some m)
      match upd with
      | .NewBest | .NoImprovement =>
        let st3 :=
          if is_first then
            { st2 with stats :=
              { st2.stats with
                  first_move_prune := st2.stats.first_move_prune.miss } }
          else st2
        return search_loop keys rec rest false w st3
      | .Prune =>
        let st3 :=
          if is_first then
            { st2 with stats :=
              { st2.stats with
                  first_move_prune := st2.stats.first_move_prune.hit } }
          else st2
        return (.ok (), w, st3)

/-- The entry section of `search` (`search.rs` lines 294-353), shared by
the depth-0 and deeper cases: cancellation check, draw check, TT probe
(`get_if_improves`) with its statistics, node count, and the empty-move
mate/stalemate leaf.  `.inl` is an early return; `.inr` carries the move
generator output, the node count before this node and the updated state
into the depth-dependent part. -/
def search_entry (ctx : SearchCtx) (depth_left : Nat) (w : AlphaBetaWindow)
    (st : SearchState) :
    (Except SearchExit NodeEvalSummary × SearchState) ⊕
      (GenOut × Nat × SearchState) := Id.run do
  let exitNow := ctx.shouldExit st.tick
  let st := st.bumpTick
  if exitNow then return .inl (.error .Cancelled, st)
  if st.board.is_draw_50 || st.board.is_draw_repetition then
    return .inl (.ok w.set_draw, st)
  let prev_nodes_searched := st.stats.nodes_searched
  match st.tt.get_if_improves st.board.zobrist_hash depth_left w with
  | some entry =>
    let st := { st with stats :=
      { st.stats with
          cached_nodes :=
            { st.stats.cached_nodes with
                hits := st.stats.cached_nodes.hits + entry.subnodes },
          transposition_hits := st.stats.transposition_hits.hit } }
    return .inl (.ok (w.set_exact entry.eval entry.best_move), st)
  | none =>
    let st := { st with stats :=
      { st.stats with
          transposition_hits := st.stats.transposition_hits.miss,
          cached_nodes := st.stats.cached_nodes.miss } }
    let st := { st with stats :=
      { st.stats with nodes_searched := st.stats.nodes_searched + 1 } }
    let movegen := ctx.gen st.board
    let moves := movegen.all_moves
    if moves.isEmpty then
      let out := if movegen.is_check then w.set_loss else w.set_draw
      let st := { st with
        tt := st.tt.insert st.board.zobrist_hash depth_left out
          (st.stats.nodes_searched - prev_nodes_searched) }
      return .inl (.ok out, st)
    return .inr (movegen, prev_nodes_searched, st)

/-- `search` (`search.rs` lines 294-405): the shared entry section
(`search_entry`), then the depth-0 quiescence leaf or the ordered move
loop one depth shallower, and the TT store of the result. -/
def search (ctx : SearchCtx) (fuel : Nat) :
    Nat → AlphaBetaWindow → SearchState →
      Except SearchExit NodeEvalSummary × SearchState
  | 0, w, st =>
    match search_entry ctx 0 w st with
    | .inl r => r
    | .inr (_, prev_nodes_searched, st) => Id.run do
      let (q, st) := quiescence_search ctx fuel w st
      match q with
      | .error e => return (.error e, st)
      | .ok quiescence_out =>
        let st := { st with
          tt := st.tt.insert st.board.zobrist_hash 0 quiescence_out
            (st.stats.nodes_searched - prev_nodes_searched) }
        return (.ok quiescence_out, st)
  | d + 1, w, st =>
    match search_entry ctx (d + 1) w st with
    | .inl r => r
    | .inr (movegen, prev_nodes_searched, st) => Id.run do
      let moves :=
        order_moves movegen.all_moves st.board movegen.attacked_squares
          st.tt
      let (res, w, st) :=
        search_loop ctx.keys (fun w st => search ctx fuel d w st) moves
          true w st
      match res with
      | .error e => return (.error e, st)
      | .ok () =>
        let out := w.finalize
        let st := { st with
          tt := st.tt.insert st.board.zobrist_hash (d + 1) out
            (st.stats.nodes_searched - prev_nodes_searched) }
        return (.ok out, st)

/-- `extract_pv` (`search.rs` lines 530-551), in its pure reading: follow
TT best moves for at most `depth_left` plies (the source makes and then
unmakes the prefix, leaving the board unchanged). -/
def extract_pv (keys : ZobristKeys) (tt : TranspositionTable) (b : Board) :
    Nat → List Move
  | 0 => []
  | depth_left + 1 =>
    match tt.getByHash b.zobrist_hash with
    | some entry =>
      match entry.best_move with
      | some best_move =>
        best_move ::
          extract_pv keys tt (b.make_move_unguarded keys best_move)
            depth_left
      | none => []
    | none => []

/-- `SearchOptions`, reduced to the `depth` field; the time-control fields
only feed the deadline half of the combined `should_exit` closure, which
the embedding carries as `SearchCtx.shouldExit`. -/
structure SearchOptions where
  depth : Option Nat

/-- `DepthSummary` (`search.rs`); `time_taken` is wall-clock and omitted,
the f32 `hash_percentage` is carried as its numerator/denominator. -/
structure DepthSummary where
  pv : List Move
  eval : Evaluation
  depth : Nat
  stats : SearchStats
  hash_used : Nat
  hash_capacity : Nat

/-- The iterative-deepening loop body of `search_root` (`search.rs` lines
594-626): per depth, check `should_exit`, run `search` with a fresh
default window, break on cancellation (discarding the partial depth),
otherwise update `prev_best_move` and emit one `DepthSummary`. -/
def search_root_loop (ctx : SearchCtx) (fuel : Nat) :
    List Nat → Move → List DepthSummary → SearchState →
      Move × List DepthSummary × SearchState
  | [], prev_best_move, acc, st => (prev_best_move, acc, st)
  | depth :: rest, prev_best_move, acc, st => Id.run do
    let exitNow := ctx.shouldExit st.tick
    let st := st.bumpTick
    if exitNow then return (prev_best_move, acc, st)
    match search ctx fuel depth AlphaBetaWindow.default st with
    | (.error .Cancelled, st) => return (prev_best_move, acc, st)
    | (.ok out, st) =>
      let prev_best_move := out.best_move.getD prev_best_move
      let summary : DepthSummary :=
        { pv := extract_pv ctx.keys st.tt st.board depth,
          eval := out.eval, depth, stats := st.stats,
          hash_used := st.tt.used_slots, hash_capacity := st.tt.capacity }
      return search_root_loop ctx fuel rest prev_best_move
        (acc ++ [summary]) st

/-- `search_root` (`search.rs` lines 553-629): generate and order the root
moves (`NoMove` if there are none), reset the statistics, then iterate
`for depth in 1..options.depth.unwrap_or(256)` — the source's half-open
range, i.e. `List.range' 1 (N - 1)` — and return the best move of the
deepest completed depth. -/
def search_root (ctx : SearchCtx) (fuel : Nat) (options : SearchOptions)
    (st : SearchState) :
    Except RootSearchExit Move × List DepthSummary × SearchState :=
  let movegen := ctx.gen st.board
  let moves := movegen.all_moves
  let moves := order_moves moves st.board movegen.attacked_squares st.tt
  match moves.head? with
  | none => (.error .NoMove, [], st)
  | some first_move =>
    let st := { st with stats := SearchStats.default }
    let (best, summaries, st) :=
      search_root_loop ctx fuel
        (List.range' 1 (options.depth.getD 256 - 1)) first_move [] st
    (.ok best, summaries, st)

/-- A constant single-king-move generator for concrete search runs: from
every position it offers one `Normal` king step and no captures, so every
searched line continues and every depth completes. -/
def demoGen : Board → GenOut := fun _ =>
  { all_moves := [Move.Normal 2 4 none .King], captures := [],
    is_check := false, attacked_squares := 0 }

/-- An uncancelled search context over `demoGen`. -/
def demoSearchCtx : SearchCtx :=
  { keys := demoKeys, gen := demoGen,
    static_eval := fun _ => .CentiPawns ⟨0⟩, shouldExit := fun _ => false }

/-- A concrete root search state: the starting position, fresh
statistics, a 16-slot transposition table, tick 0. -/
def demoSearchSt : SearchState :=
  { board := startingPosition demoKeys, stats := SearchStats.default,
    tt := TranspositionTable.new 16, tick := 0 }

/-- A cancel predicate that fires from the second `should_exit()` call
on: false at tick 0, true from tick 1. -/
def lateExit : Nat → Bool := fun t => decide (0 < t)

/-- `demoSearchCtx` with the late-firing cancel predicate. -/
def lateExitCtx : SearchCtx :=
  { demoSearchCtx with shouldExit := lateExit }

/-- `demoSearchSt` one tick in: `lateExitCtx`'s cancel flag is already up
here. -/
def demoSearchSt1 : SearchState := { demoSearchSt with tick := 1 }

theorem centiPawns_val_inj (a b : CentiPawns) : a.val = b.val ↔ a = b := by
  cases a; cases b; simp

theorem evaluation_cmp_eq_iff (a b : Evaluation) :
    Evaluation.cmp a b = .eq ↔ a = b := by
  cases a <;> cases b <;>
    simp [Evaluation.cmp, compare_eq_iff_eq, centiPawns_val_inj] <;>
    try omega

theorem evaluation_cmp_lt_gt (a b : Evaluation) :
    Evaluation.cmp a b = .lt ↔ Evaluation.cmp b a = .gt := by
  cases a <;> cases b <;>
    simp [Evaluation.cmp, compare_lt_iff_lt, compare_gt_iff_gt]

theorem evaluation_le_total (a b : Evaluation) : a ≤ b ∨ b ≤ a := by
  show Evaluation.cmp a b ≠ .gt ∨ Evaluation.cmp b a ≠ .gt
  cases a <;> cases b <;>
    simp [Evaluation.cmp, compare_le_iff_le] <;> omega

theorem evaluation_le_trans (a b c : Evaluation) : a ≤ b → b ≤ c → a ≤ c := by
  show Evaluation.cmp a b ≠ .gt → Evaluation.cmp b c ≠ .gt → Evaluation.cmp a c ≠ .gt
  cases a <;> cases b <;> cases c <;>
    simp [Evaluation.cmp, compare_le_iff_le] <;> omega

theorem int_compare_neg (x y : Int) : compare (-x) (-y) = compare y x := by
  rcases lt_trichotomy x y with h | h | h
  · rw [compare_gt_iff_gt.mpr (by omega : (-y : Int) < -x),
      compare_gt_iff_gt.mpr h]
  · subst h
    rw [compare_eq_iff_eq.mpr rfl, compare_eq_iff_eq.mpr rfl]
  · rw [compare_lt_iff_lt.mpr (by omega : (-x : Int) < -y),
      compare_lt_iff_lt.mpr h]

theorem evaluation_neg_cases (e : Evaluation) :
    (∀ x, Evaluation.neg (.Win x) = .Loss x) ∧
    (∀ x, Evaluation.neg (.Loss x) = .Win x) ∧
    (∀ c : CentiPawns, Evaluation.neg (.CentiPawns c) = .CentiPawns ⟨-c.val⟩) ∧
    Evaluation.neg (Evaluation.neg e) = e := by
  refine ⟨fun x => rfl, fun x => rfl, fun c => ?_, ?_⟩
  · simp [Evaluation.neg, Evaluation.mul, CentiPawns.mul, compare_eq_iff_eq]
  · cases e with
    | Win x => rfl
    | Loss x => rfl
    | CentiPawns c =>
      cases c
      simp [Evaluation.neg, Evaluation.mul, CentiPawns.mul, compare_eq_iff_eq]

/-- C6. The comparison on `Evaluation` is a total order: reflexive,
antisymmetric, transitive and total for the order `a ≤ b ↔ cmp a b ≠ gt`;
every `Win _` compares greater than every `CentiPawns _` and every `Loss _`,
every `CentiPawns _` compares greater than every `Loss _`;
`Win a > Win b ↔ a < b` (fewer plies to mate is better),
`Loss a > Loss b ↔ a > b` (more plies to loss is better), and
`CentiPawns` compare numerically.  Negation maps `Win x ↦ Loss x`,
`Loss x ↦ Win x` and negates the centipawn amount, is an involution,
and reverses the comparison. -/
theorem c6_evaluation_order_and_negation :
    (∀ a : Evaluation, a ≤ a) ∧
    (∀ a b : Evaluation, a ≤ b → b ≤ a → a = b) ∧
    (∀ a b c : Evaluation, a ≤ b → b ≤ c → a ≤ c) ∧
    (∀ a b : Evaluation, a ≤ b ∨ b ≤ a) ∧
    (∀ a c, Evaluation.cmp (.Win a) (.CentiPawns c) = .gt) ∧
    (∀ a c, Evaluation.cmp (.Win a) (.Loss c) = .gt) ∧
    (∀ c a, Evaluation.cmp (.CentiPawns c) (.Loss a) = .gt) ∧
    (∀ a b, Evaluation.cmp (.Win a) (.Win b) = .gt ↔ a < b) ∧
    (∀ a b, Evaluation.cmp (.Loss a) (.Loss b) = .gt ↔ a > b) ∧
    (∀ c d : CentiPawns,
      Evaluation.cmp (.CentiPawns c) (.CentiPawns d) = .gt ↔ c.val > d.val) ∧
    (∀ x, Evaluation.neg (.Win x) = .Loss x) ∧
    (∀ x, Evaluation.neg (.Loss x) = .Win x) ∧
    (∀ c : CentiPawns, Evaluation.neg (.CentiPawns c) = .CentiPawns ⟨-c.val⟩) ∧
    (∀ e, Evaluation.neg (Evaluation.neg e) = e) ∧
    (∀ a b, Evaluation.cmp (Evaluation.neg a) (Evaluation.neg b) =
      Evaluation.cmp b a) := by
  refine ⟨?_, ?_, evaluation_le_trans, evaluation_le_total,
    ?_, ?_, ?_, ?_, ?_, ?_,
    fun x => (evaluation_neg_cases .MIN).1 x,
    fun x => (evaluation_neg_cases .MIN).2.1 x,
    fun c => (evaluation_neg_cases .MIN).2.2.1 c,
    fun e => (evaluation_neg_cases e).2.2.2, ?_⟩
  · intro a
    show Evaluation.cmp a a ≠ .gt
    cases a <;> simp [Evaluation.cmp, compare_le_iff_le]
  · intro a b hab hba
    have h1 : Evaluation.cmp a b ≠ .gt := hab
    have h2 : Evaluation.cmp b a ≠ .gt := hba
    rw [← evaluation_cmp_eq_iff]
    cases h : Evaluation.cmp a b with
    | eq => rfl
    | gt => exact absurd h h1
    | lt => exact absurd ((evaluation_cmp_lt_gt a b).mp h) h2
  · intro a c; rfl
  · intro a c; rfl
  · intro c a; rfl
  · intro a b
    simp [Evaluation.cmp, compare_gt_iff_gt]
  · intro a b
    simp [Evaluation.cmp, compare_gt_iff_gt]
  · intro c d
    simp [Evaluation.cmp, compare_gt_iff_gt]
  · intro a b
    obtain ⟨hw, hl, hc, _⟩ := evaluation_neg_cases .MIN
    cases a <;> cases b <;>
      simp [hw, hl, hc, Evaluation.cmp, int_compare_neg]

/-! ## Alpha-beta window (`alpha_beta_window.rs`) and transposition table
(`transposition_table.rs`)

The copy of `alpha_beta_window.rs` in the tree predates its callers: both
`search.rs` and `transposition_table.rs` use a `best_move` field on
`NodeEvalSummary`, the two-argument `update(eval, move)` / `set_exact(eval,
best_move)` and the `set_draw()` / `set_loss()` constructors, none of which
appear in that file.  Those members are modelled from the spec below and
marked as such; everything else follows the source file. -/

theorem tt_new_get (size hash : Nat) :
    (TranspositionTable.new size).table.getD (hash % size) none = none := by
  rw [TranspositionTable.new, List.getD_eq_getElem?_getD, List.getElem?_replicate]
  split <;> rfl

theorem tt_insert_fresh (size hash dIns subn : Nat)
    (node : NodeEvalSummary) :
    (TranspositionTable.new size).insert hash dIns node subn =
      { table := (List.replicate size none).set (hash % size)
          (some (freshEntry hash dIns subn node)),
        used_slots := 1 } := by
  rw [TranspositionTable.insert]
  have hl : (TranspositionTable.new size).table.length = size := by
    simp [TranspositionTable.new]
  rw [hl, tt_new_get size hash]
  simp [TranspositionTable.new, freshEntry]

theorem tt_get_fresh (size hash dIns subn : Nat) (node : NodeEvalSummary)
    (hsize : 0 < size) :
    ((TranspositionTable.new size).insert hash dIns node subn).getByHash
      hash = some (freshEntry hash dIns subn node) := by
  rw [tt_insert_fresh size hash dIns subn node,
    TranspositionTable.getByHash]
  have hlen : ((List.replicate size (none (α := TranspositionEntry))).set
      (hash % size) (some (freshEntry hash dIns subn node))).length = size := by
    simp
  simp only [hlen]
  rw [List.getD_eq_getElem?_getD,
    List.getElem?_set_self (by simpa using Nat.mod_lt hash hsize)]
  simp [freshEntry]

/-- C5. Transposition-table mate-distance normalization round-trip: an
insert of a node summary produced at ply `p = node.plies` stores `Win k` as
`Win (k - p)` (resp. `Loss`), and any later `get_if_improves` hit through a
window at ply `q` returns `Win (k + q - p)` (resp. `Loss (k + q - p)`),
`p ≤ k`, while `CentiPawns` values pass through unchanged. -/
theorem c5_tt_mate_normalization_roundtrip
    (size hash dIns dLook subn : Nat) (node : NodeEvalSummary)
    (w : AlphaBetaWindow) (e : TranspositionEntry)
    (hsize : 0 < size)
    (hit : ((TranspositionTable.new size).insert hash dIns node
        subn).get_if_improves hash dLook w = some e) :
    (∀ k, node.eval = .Win k → node.plies ≤ k →
      e.eval = .Win (k + w.plies - node.plies)) ∧
    (∀ k, node.eval = .Loss k → node.plies ≤ k →
      e.eval = .Loss (k + w.plies - node.plies)) ∧
    (∀ c, node.eval = .CentiPawns c → e.eval = .CentiPawns c) := by
  simp only [TranspositionTable.get_if_improves,
    tt_get_fresh size hash dIns subn node hsize] at hit
  have heval : e.eval =
      match (freshEntry hash dIns subn node).eval with
      | .Win x => .Win (x + w.plies)
      | .Loss x => .Loss (x + w.plies)
      | x => x := by
    split at hit
    · split at hit
      · cases hit
        rfl
      · cases hit
    · cases hit
  refine ⟨fun k hk hkp => ?_, fun k hk hkp => ?_, fun c hc => ?_⟩
  · rw [heval]
    simp only [freshEntry, hk]
    congr 1
    omega
  · rw [heval]
    simp only [freshEntry, hk]
    congr 1
    omega
  · rw [heval]
    simp only [freshEntry, hc]

/-- Witness for C5: `Win 9` produced at ply 4, inserted at depth 3 and
retrieved through a window at ply 6, comes back as `Win (9 + 6 - 4)`. -/
theorem c5_witness :
    0 < 8 ∧
    ((TranspositionTable.new 8).insert 5 3
        { eval := .Win 9, kind := .Exact, plies := 4, best_move := none }
        7).get_if_improves 5 2
        { starting_alpha := .MIN, alpha := .MIN, beta := .MAX, best := .MIN,
          best_move := none, plies := 6 } =
      some
        { hash := 5, eval := .Win 11, depth := 3, kind := .Exact,
          subnodes := 7, best_move := none } ∧
    Evaluation.Win 11 = .Win (9 + 6 - 4) :=
  ⟨by decide, by decide,
    (c5_tt_mate_normalization_roundtrip 8 5 3 2 7
        { eval := .Win 9, kind := .Exact, plies := 4, best_move := none }
        { starting_alpha := .MIN, alpha := .MIN, beta := .MAX, best := .MIN,
          best_move := none, plies := 6 }
        { hash := 5, eval := .Win 11, depth := 3, kind := .Exact,
          subnodes := 7, best_move := none }
        (by decide) (by decide)).1 9 rfl (by decide)⟩

theorem countSome_le_length (l : List (Option TranspositionEntry)) :
    countSome l ≤ l.length := by
  induction l with
  | nil => simp [countSome]
  | cons a rest ih =>
    cases a <;> simp [countSome] <;> omega

theorem countSome_set_none (l : List (Option TranspositionEntry)) (i : Nat)
    (x : TranspositionEntry) (hnone : l[i]? = some none) :
    countSome (l.set i (some x)) = countSome l + 1 := by
  induction l generalizing i with
  | nil => simp at hnone
  | cons a rest ih =>
    cases i with
    | zero =>
      simp at hnone
      subst hnone
      simp [countSome]
    | succ j =>
      simp at hnone
      cases a <;> simp [countSome, ih j hnone]

theorem countSome_set_some (l : List (Option TranspositionEntry)) (i : Nat)
    (x y : TranspositionEntry) (hsome : l[i]? = some (some y)) :
    countSome (l.set i (some x)) = countSome l := by
  induction l generalizing i with
  | nil => simp at hsome
  | cons a rest ih =>
    cases i with
    | zero =>
      simp at hsome
      subst hsome
      simp [countSome]
    | succ j =>
      simp at hsome
      cases a <;> simp [countSome, ih j hsome]

theorem countSome_replicate (n : Nat) :
    countSome (List.replicate n none) = 0 := by
  induction n with
  | zero => rfl
  | succ m ih => simpa [List.replicate_succ, countSome] using ih

theorem tt_insert_inv (t : TranspositionTable) (size hash depth subn : Nat)
    (node : NodeEvalSummary) (hsize : 0 < size)
    (hlen : t.table.length = size)
    (hused : t.used_slots = countSome t.table) :
    (t.insert hash depth node subn).table.length = size ∧
      (t.insert hash depth node subn).used_slots =
        countSome (t.insert hash depth node subn).table := by
  subst hlen
  have hidx : hash % t.table.length < t.table.length :=
    Nat.mod_lt hash hsize
  have hget : t.table[hash % t.table.length]? =
      some (t.table.get ⟨hash % t.table.length, hidx⟩) := by
    rw [List.getElem?_eq_getElem hidx]
    rfl
  have hgetD : t.table.getD (hash % t.table.length) none =
      t.table.get ⟨hash % t.table.length, hidx⟩ := by
    rw [List.getD_eq_getElem?_getD, hget]
    rfl
  cases hval : t.table.get ⟨hash % t.table.length, hidx⟩ with
  | none =>
    refine ⟨?_, ?_⟩ <;>
      simp only [TranspositionTable.insert, hgetD, hval] <;>
      simp [hused,
        countSome_set_none t.table (hash % t.table.length) _
          (by rw [hget, hval])]
  | some o =>
    refine ⟨?_, ?_⟩ <;>
      simp only [TranspositionTable.insert, hgetD, hval] <;>
      split <;>
      simp [hused,
        countSome_set_some t.table (hash % t.table.length) _ o
          (by rw [hget, hval])]

/-- C10. Transposition-table occupancy invariant: starting from
`TranspositionTable::new(size)` with `size > 0`, after any sequence of
`insert` operations `used_slots` equals the number of occupied (`some`)
slots, the capacity still equals the constructed `size`, and hence
`used_slots ≤ capacity`. -/
theorem c10_tt_occupancy_invariant (size : Nat)
    (ops : List (Nat × Nat × NodeEvalSummary × Nat)) (hsize : 0 < size) :
    (ops.foldl
        (fun t op => t.insert op.1 op.2.1 op.2.2.1 op.2.2.2)
        (TranspositionTable.new size)).used_slots =
      countSome (ops.foldl
        (fun t op => t.insert op.1 op.2.1 op.2.2.1 op.2.2.2)
        (TranspositionTable.new size)).table ∧
    (ops.foldl
        (fun t op => t.insert op.1 op.2.1 op.2.2.1 op.2.2.2)
        (TranspositionTable.new size)).capacity = size ∧
    (ops.foldl
        (fun t op => t.insert op.1 op.2.1 op.2.2.1 op.2.2.2)
        (TranspositionTable.new size)).used_slots ≤
      (ops.foldl
        (fun t op => t.insert op.1 op.2.1 op.2.2.1 op.2.2.2)
        (TranspositionTable.new size)).capacity := by
  suffices h : ∀ t : TranspositionTable, t.table.length = size →
      t.used_slots = countSome t.table →
      (ops.foldl (fun t op => t.insert op.1 op.2.1 op.2.2.1 op.2.2.2)
        t).table.length = size ∧
      (ops.foldl (fun t op => t.insert op.1 op.2.1 op.2.2.1 op.2.2.2)
        t).used_slots =
        countSome (ops.foldl
          (fun t op => t.insert op.1 op.2.1 op.2.2.1 op.2.2.2) t).table by
    obtain ⟨h1, h2⟩ := h (TranspositionTable.new size)
      (by simp [TranspositionTable.new])
      (by simp [TranspositionTable.new, countSome_replicate])
    refine ⟨h2, h1, ?_⟩
    rw [h2, TranspositionTable.capacity]
    exact le_trans (countSome_le_length _) (le_of_eq rfl)
  induction ops with
  | nil => exact fun t h1 h2 => ⟨h1, h2⟩
  | cons op rest ih =>
    intro t h1 h2
    obtain ⟨h1', h2'⟩ :=
      tt_insert_inv t size op.1 op.2.1 op.2.2.2 op.2.2.1 hsize h1 h2
    exact ih _ h1' h2'

/-- Witness for C10: two concrete inserts into a table of capacity 4. -/
theorem c10_witness :
    0 < 4 ∧
    (demoOps.foldl (fun t op => t.insert op.1 op.2.1 op.2.2.1 op.2.2.2)
        (TranspositionTable.new 4)).used_slots =
      countSome (demoOps.foldl
        (fun t op => t.insert op.1 op.2.1 op.2.2.1 op.2.2.2)
        (TranspositionTable.new 4)).table :=
  ⟨by decide, (c10_tt_occupancy_invariant 4 demoOps (by decide)).1⟩

/-! ## Bitboard primitives (`bitboard.rs`), colors, squares -/

/-- C3. The claim says each individual castling right XORs a distinct key
(king-side ≠ queen-side per color).  In the source both accessors read
`castling[color][0]`, so for every possible key table and color the two
flank keys coincide — two positions differing only in which single flank's
right is live therefore always share a Zobrist hash. -/
theorem c3_castling_keys_not_distinct (keys : ZobristKeys) (c : Color) :
    keys.king_castling c = keys.queen_castling c ∧
    ∀ h : Nat, h ^^^ keys.king_castling c = h ^^^ keys.queen_castling c :=
  ⟨rfl, fun _ => rfl⟩

/-! ## Board state and make/unmake (`board.rs`) -/

theorem color_opposite_opposite (c : Color) : c.opposite.opposite = c := by
  cases c <;> rfl

theorem xtoggle_invol {α : Type} [DecidableEq α] (k : α) (m : Nat)
    (f : α → Nat) : xtoggle k m (xtoggle k m f) = f := by
  funext x
  by_cases h : x = k <;>
    simp [xtoggle, fupdate, h, Nat.xor_assoc]

theorem xtoggle_comm {α : Type} [DecidableEq α] (k1 : α) (m1 : Nat)
    (k2 : α) (m2 : Nat) (f : α → Nat) :
    xtoggle k1 m1 (xtoggle k2 m2 f) = xtoggle k2 m2 (xtoggle k1 m1 f) := by
  funext x
  by_cases h12 : k1 = k2
  · subst h12
    by_cases h : x = k1 <;>
      simp [xtoggle, fupdate, h, Nat.xor_assoc, Nat.xor_comm m1 m2]
  · by_cases h1 : x = k1 <;> by_cases h2 : x = k2 <;>
      simp_all [xtoggle, fupdate]

theorem xtoggle_cancel2 {α : Type} [DecidableEq α] (k1 k2 : α) (m1 m2 : Nat)
    (f : α → Nat) :
    xtoggle k2 m2 (xtoggle k1 m1 (xtoggle k2 m2 (xtoggle k1 m1 f))) = f := by
  rw [xtoggle_comm k1 m1 k2 m2, xtoggle_invol, xtoggle_invol]

theorem xtoggle_cancel3 {α : Type} [DecidableEq α] (k1 k2 k3 : α)
    (m1 m2 m3 : Nat) (f : α → Nat) :
    xtoggle k3 m3 (xtoggle k2 m2 (xtoggle k1 m1
      (xtoggle k3 m3 (xtoggle k2 m2 (xtoggle k1 m1 f))))) = f := by
  rw [xtoggle_comm k1 m1 k3 m3, xtoggle_comm k2 m2 k3 m3, xtoggle_invol,
    xtoggle_comm k1 m1 k2 m2, xtoggle_invol, xtoggle_invol]

/-- One make followed by one unmake restores the board byte-for-byte and
pops exactly the made move. -/
theorem make_undo_roundtrip (keys : ZobristKeys) (b : Board) (m : Move) :
    (b.make_move_unguarded keys m).try_undo_move = (b, some m) := by
  obtain ⟨P, C, ctm, cc, ep, hc, fc, zh, ud⟩ := b
  cases m with
  | Normal f t cap mov =>
    cases cap <;> cases ctm <;>
      simp [Board.make_move_unguarded, Board.try_undo_move, Board.xor_piece,
        Board.xor_color, Board.xor_hash, Board.disable_ep,
        Board.toggle_castling_hashes, Color.opposite, xtoggle_invol,
        xtoggle_cancel2, xtoggle_cancel3]
  | DoublePawn f t =>
    cases ctm <;>
      simp [Board.make_move_unguarded, Board.try_undo_move, Board.xor_piece,
        Board.xor_color, Board.xor_hash, Board.disable_ep,
        Board.toggle_castling_hashes, Color.opposite, xtoggle_invol,
        xtoggle_cancel2, xtoggle_cancel3]
  | EnPassant f t =>
    cases ctm <;>
      simp [Board.make_move_unguarded, Board.try_undo_move, Board.xor_piece,
        Board.xor_color, Board.xor_hash, Board.disable_ep,
        Board.toggle_castling_hashes, Color.opposite, xtoggle_invol,
        xtoggle_cancel2, xtoggle_cancel3]
  | Castle f t rf rt =>
    cases ctm <;>
      simp [Board.make_move_unguarded, Board.try_undo_move, Board.xor_piece,
        Board.xor_color, Board.xor_hash, Board.disable_ep,
        Board.toggle_castling_hashes, Color.opposite, xtoggle_invol,
        xtoggle_cancel2, xtoggle_cancel3]
  | Promotion f t promo cap =>
    cases cap <;> cases ctm <;>
      simp [Board.make_move_unguarded, Board.try_undo_move, Board.xor_piece,
        Board.xor_color, Board.xor_hash, Board.disable_ep,
        Board.toggle_castling_hashes, Color.opposite, xtoggle_invol,
        xtoggle_cancel2, xtoggle_cancel3]

theorem undo_applyMoves (keys : ZobristKeys) (b : Board) (ms : List Move) :
    undoN (applyMoves keys b ms) ms.length = b := by
  induction ms using List.reverseRecOn with
  | nil => rfl
  | append_singleton ms m ih =>
    rw [applyMoves, List.foldl_append, List.length_append]
    simp only [List.foldl_cons, List.foldl_nil, List.length_cons,
      List.length_nil]
    show undoN _ (ms.length + 1) = b
    rw [undoN,
      show (Board.make_move_unguarded keys
          (List.foldl (Board.make_move_unguarded keys) b ms)
          m).try_undo_move.1 =
          List.foldl (Board.make_move_unguarded keys) b ms from by
        rw [make_undo_roundtrip]]
    exact ih

/-- C4. Make/unmake reversibility: for every position and every move,
`try_undo_move` after `make_move_unguarded` restores every field of the
position byte-for-byte (piece and color bitboards, side to move, castling
rights, en-passant square, clocks, undo stack and Zobrist hash) and pops
exactly the made move; by induction the same holds for any move sequence
applied and then undone in reverse. -/
theorem c4_make_unmake_roundtrip (keys : ZobristKeys) (b : Board) :
    (∀ m : Move,
      (b.make_move_unguarded keys m).try_undo_move = (b, some m)) ∧
    (∀ ms : List Move, undoN (applyMoves keys b ms) ms.length = b) :=
  ⟨fun m => make_undo_roundtrip keys b m, fun ms => undo_applyMoves keys b ms⟩

/-- C9. The null move flips only the side-to-move field and its undo flips
it back: piece and color bitboards, castling rights, en-passant square
(not cleared), clocks, undo stack and the Zobrist hash (side-to-move key
not toggled) are untouched by both operations, and undo after make is the
identity. -/
theorem c9_null_move_flips_only_side (b : Board) :
    b.make_null_move_unguarded.color_to_move = b.color_to_move.opposite ∧
    b.make_null_move_unguarded.pieces = b.pieces ∧
    b.make_null_move_unguarded.colors = b.colors ∧
    b.make_null_move_unguarded.can_castle = b.can_castle ∧
    b.make_null_move_unguarded.enpassant_square = b.enpassant_square ∧
    b.make_null_move_unguarded.halfmove_clock = b.halfmove_clock ∧
    b.make_null_move_unguarded.fullmove_counter = b.fullmove_counter ∧
    b.make_null_move_unguarded.zobrist_hash = b.zobrist_hash ∧
    b.make_null_move_unguarded.undo_data = b.undo_data ∧
    b.undo_null_move.color_to_move = b.color_to_move.opposite ∧
    b.undo_null_move.pieces = b.pieces ∧
    b.undo_null_move.colors = b.colors ∧
    b.undo_null_move.can_castle = b.can_castle ∧
    b.undo_null_move.enpassant_square = b.enpassant_square ∧
    b.undo_null_move.halfmove_clock = b.halfmove_clock ∧
    b.undo_null_move.fullmove_counter = b.fullmove_counter ∧
    b.undo_null_move.zobrist_hash = b.zobrist_hash ∧
    b.undo_null_move.undo_data = b.undo_data ∧
    b.make_null_move_unguarded.undo_null_move = b := by
  obtain ⟨P, C, ctm, cc, ep, hc, fc, zh, ud⟩ := b
  refine ⟨rfl, rfl, rfl, rfl, rfl, rfl, rfl, rfl, rfl,
    rfl, rfl, rfl, rfl, rfl, rfl, rfl, rfl, rfl, ?_⟩
  simp [Board.make_null_move_unguarded, Board.undo_null_move,
    color_opposite_opposite]

/-! ## The concrete repetition scenario for C2 -/

set_option maxRecDepth 8000 in
/-- C2. Evaluating the code on the failing history: after `1. e4 e5
2. Nf3` and a double knight shuffle the position after `2. Nf3` has
occurred three times, and a backwards walk from the most recent move (the
claim's algorithm, `spec_is_draw_repetition`) reports the draw — but the
source's `is_draw_repetition` iterates the undo `Vec` front-to-back
(oldest move first), hits the irreversible `e2e4` entry immediately and
returns `false`. -/
theorem c2_repetition_scan_direction_bug :
    (applyMoves demoKeys (startingPosition demoKeys)
      shuffleAfterPawn).is_draw_repetition = false ∧
    spec_is_draw_repetition
      (applyMoves demoKeys (startingPosition demoKeys)
        shuffleAfterPawn) = true := by
  constructor
  · decide
  · decide

/-! ## Move generator (`move_generator.rs`)

The per-piece attack generation of `MoveGenerator::with_attacks` depends on
the magic-bitboard lookup tables built at startup; the embedding abstracts
the slider lookups as a `MagicTables` parameter and the precomputed
`attacks_from_square` array as an input, and translates everything built
from them — the check/pin classification and every move-emitting function —
directly from the source. -/

theorem tzAux_testBit (fuel : Nat) :
    ∀ n : Nat, n ≠ 0 → n < 2 ^ fuel → Nat.testBit n (tzAux fuel n) = true := by
  induction fuel with
  | zero =>
    intro n hn hlt
    omega
  | succ fuel ih =>
    intro n hn hlt
    rw [tzAux]
    by_cases hodd : n % 2 = 1 ∨ n = 0
    · rw [if_pos hodd, Nat.testBit_zero]
      simp
      omega
    · rw [if_neg hodd, Nat.testBit_add_one]
      refine ih (n / 2) (by omega) ?_
      rw [Nat.pow_succ] at hlt
      omega

theorem tz_testBit (n : Nat) (hn : n ≠ 0) (hlt : n < 2 ^ 64) :
    Nat.testBit n (tz n) = true :=
  tzAux_testBit 64 n hn hlt

theorem addAttacksFrom_src (fuel i : Nat) :
    ∀ (bb : Nat) (toMap : Nat → Nat) (k : Nat), bb < 2 ^ 64 →
      addAttacksFrom fuel i bb toMap k ≠ 0 →
      toMap k ≠ 0 ∨ Nat.testBit bb k = true := by
  induction fuel with
  | zero =>
    intro bb toMap k hbb h
    exact Or.inl h
  | succ fuel ih =>
    intro bb toMap k hbb h
    rw [addAttacksFrom] at h
    by_cases h0 : bb = 0
    · rw [if_pos h0] at h
      exact Or.inl h
    · rw [if_neg h0] at h
      rcases ih (bb &&& (bb - 1)) _ k
          (lt_of_le_of_lt Nat.and_le_left hbb) h with h1 | h1
      · by_cases hk : k = tz bb
        · subst hk
          exact Or.inr (tz_testBit bb h0 hbb)
        · left
          simpa [fupdate, hk] using h1
      · right
        rw [Nat.testBit_and] at h1
        exact (Bool.and_eq_true _ _ |>.mp h1).1

theorem buildAttacksTo_src (afs : Nat → Nat) (k : Nat)
    (hbound : ∀ i ∈ List.range 64, afs i < 2 ^ 64)
    (h : buildAttacksTo afs k ≠ 0) :
    ∃ i ∈ List.range 64, Nat.testBit (afs i) k = true := by
  rw [buildAttacksTo] at h
  suffices hgen : ∀ (l : List Nat) (toMap : Nat → Nat),
      (∀ i ∈ l, afs i < 2 ^ 64) →
      (l.foldl (fun toMap i => addAttacksFrom 64 i (afs i) toMap) toMap)
        k ≠ 0 →
      toMap k ≠ 0 ∨ ∃ i ∈ l, Nat.testBit (afs i) k = true by
    rcases hgen (List.range 64) (fun _ => 0) hbound h with h1 | h1
    · exact absurd rfl h1
    · exact h1
  intro l
  induction l with
  | nil => exact fun toMap _ h => Or.inl h
  | cons a l ihl =>
    intro toMap hb h
    rw [List.foldl_cons] at h
    rcases ihl (addAttacksFrom 64 a (afs a) toMap)
        (fun i hi => hb i (List.mem_cons_of_mem a hi)) h with h1 | h1
    · rcases addAttacksFrom_src 64 a (afs a) toMap k
          (hb a (List.mem_cons_self a l)) h1 with h2 | h2
      · exact Or.inl h2
      · exact Or.inr ⟨a, List.mem_cons_self a l, h2⟩
    · obtain ⟨i, hi, hbit⟩ := h1
      exact Or.inr ⟨i, List.mem_cons_of_mem a hi, hbit⟩

theorem foldOrAttacks_testBit (afs : Nat → Nat) (i k : Nat)
    (hi : i ∈ List.range 64) (hbit : Nat.testBit (afs i) k = true) :
    Nat.testBit (foldOrAttacks afs) k = true := by
  rw [foldOrAttacks]
  suffices hgen : ∀ (l : List Nat) (acc : Nat),
      (Nat.testBit acc k = true ∨ ∃ j ∈ l, Nat.testBit (afs j) k = true) →
      Nat.testBit (l.foldl (fun acc j => acc ||| afs j) acc) k = true from
    hgen (List.range 64) 0 (Or.inr ⟨i, hi, hbit⟩)
  intro l
  induction l with
  | nil =>
    intro acc h
    rcases h with h | ⟨j, hj, _⟩
    · exact h
    · simp at hj
  | cons a l ihl =>
    intro acc h
    rw [List.foldl_cons]
    refine ihl (acc ||| afs a) ?_
    rcases h with h | ⟨j, hj, hbitj⟩
    · left
      rw [Nat.testBit_or, h]
      rfl
    · rcases List.mem_cons.mp hj with rfl | hj
      · left
        rw [Nat.testBit_or, hbitj, Bool.or_true]
      · exact Or.inr ⟨j, hj, hbitj⟩

theorem targets_to_moves_shape (allM : Bool) (origin : Nat) (p : Piece)
    (targets : Nat) (b : Board) (m : Move)
    (hm : m ∈ targets_to_moves allM origin p targets b) :
    ∃ f t cap, m = Move.Normal f t cap p := by
  rw [targets_to_moves] at hm
  rcases List.mem_append.mp hm with h | h
  · split at h
    · obtain ⟨t, _, rfl⟩ := List.mem_map.mp h
      exact ⟨origin, t, none, rfl⟩
    · simp at h
  · obtain ⟨t, _, rfl⟩ := List.mem_map.mp h
    exact ⟨origin, t, _, rfl⟩

theorem classify_double_check_attackers (b : Board) (afs : Nat → Nat)
    (hdc : (MoveGenerator.classify b afs).is_double_check = true) :
    buildAttacksTo afs (firstIdxD (b.king b.color_to_move)) ≠ 0 := by
  rw [MoveGenerator.classify] at hdc
  by_cases h0 : buildAttacksTo afs (firstIdxD (b.king b.color_to_move)) = 0
  · simp only [h0, if_pos rfl] at hdc
    cases hdc
  · exact h0

theorem classify_double_check_attacked (b : Board) (afs : Nat → Nat)
    (ks : Nat)
    (hking : firstPieceIndex (b.king b.color_to_move) = some ks)
    (hbound : ∀ i ∈ List.range 64, afs i < 2 ^ 64)
    (hdc : (MoveGenerator.classify b afs).is_double_check = true) :
    Nat.testBit (MoveGenerator.classify b afs).attacked_squares ks = true := by
  have hksq : firstIdxD (b.king b.color_to_move) = ks := by
    rw [firstIdxD, hking]
    rfl
  have hka : buildAttacksTo afs ks ≠ 0 := by
    rw [← hksq]
    exact classify_double_check_attackers b afs hdc
  obtain ⟨i, hi, hbit⟩ := buildAttacksTo_src afs ks hbound hka
  have : (MoveGenerator.classify b afs).attacked_squares =
      foldOrAttacks afs := rfl
  rw [this]
  exact foldOrAttacks_testBit afs i ks hi hbit

/-- C7. In double check, `generate_all_moves` emits only king moves: from
any attack map and any board with a king for the side to move, if the
classification reports double check then every generated move is a
`Normal` move of the king — in particular no `Castle` is emitted, because
the king's own square is attacked and the castle guard
`king_move_mask & attacked_squares` is therefore nonempty. -/
theorem c7_double_check_only_king_moves (b : Board) (afs : Nat → Nat)
    (tables : MagicTables) (allM : Bool) (ks : Nat)
    (hk64 : b.pieces Piece.King < 2 ^ 64)
    (hbound : ∀ i ∈ List.range 64, afs i < 2 ^ 64)
    (hking : firstPieceIndex (b.king b.color_to_move) = some ks)
    (hdc : (MoveGenerator.classify b afs).is_double_check = true) :
    ∀ m ∈ (MoveGenerator.classify b afs).generate_all_moves tables allM b,
      ∃ f t cap, m = Move.Normal f t cap Piece.King := by
  intro m hm
  have hkne : b.king b.color_to_move ≠ 0 := by
    intro h0
    rw [firstPieceIndex, if_pos h0] at hking
    cases hking
  have hktz : tz (b.king b.color_to_move) = ks := by
    rw [firstPieceIndex, if_neg hkne] at hking
    cases hking
    rfl
  have hklt : b.king b.color_to_move < 2 ^ 64 :=
    lt_of_le_of_lt Nat.and_le_left hk64
  have hbitking : Nat.testBit (b.king b.color_to_move) ks = true :=
    hktz ▸ tz_testBit _ hkne hklt
  have hat : Nat.testBit
      (MoveGenerator.classify b afs).attacked_squares ks = true :=
    classify_double_check_attacked b afs ks hking hbound hdc
  have hmask : ∀ s1 s2 : Nat,
      ¬((b.king b.color_to_move ||| s1 ||| s2) &&&
        (MoveGenerator.classify b afs).attacked_squares = 0) := by
    intro s1 s2 h0
    have hb : Nat.testBit ((b.king b.color_to_move ||| s1 ||| s2) &&&
        (MoveGenerator.classify b afs).attacked_squares) ks = true := by
      rw [Nat.testBit_and, Nat.testBit_or, Nat.testBit_or, hbitking, hat]
      rfl
    rw [h0, Nat.zero_testBit] at hb
    cases hb
  rw [MoveGenerator.generate_all_moves, hdc] at hm
  simp only [not_true_eq_false, if_false, Bool.true_eq_false,
    ite_false] at hm
  rw [MoveGenerator.generate_king_moves] at hm
  cases allM with
  | false =>
    simp only [Bool.false_eq_true, if_false, ite_false] at hm
    exact targets_to_moves_shape _ _ _ _ _ _ hm
  | true =>
    simp only [if_true, ite_true] at hm
    have hks : (if b.can_castle_kingside b.color_to_move then
        if (b.king b.color_to_move |||
              wrapping_shift (b.king b.color_to_move) .East 1 |||
              wrapping_shift (b.king b.color_to_move) .East 2) &&&
              (MoveGenerator.classify b afs).attacked_squares = 0 ∧
            (wrapping_shift (b.king b.color_to_move) .East 1 |||
              wrapping_shift (b.king b.color_to_move) .East 2) &&&
              b.all_piece_bitboard = 0 then
          [Move.Castle (b.king b.color_to_move)
            (wrapping_shift (b.king b.color_to_move) .East 2)
            (wrapping_shift (b.king b.color_to_move) .East 3)
            (wrapping_shift (b.king b.color_to_move) .East 1)]
        else []
      else []) = [] := by
      split
      · rw [if_neg]
        intro hcond
        exact hmask _ _ hcond.1
      · rfl
    have hqs : (if b.can_castle_queenside b.color_to_move then
        if (b.king b.color_to_move |||
              wrapping_shift (b.king b.color_to_move) .West 1 |||
              wrapping_shift (b.king b.color_to_move) .West 2) &&&
              (MoveGenerator.classify b afs).attacked_squares = 0 ∧
            (wrapping_shift (b.king b.color_to_move) .West 1 |||
              wrapping_shift (b.king b.color_to_move) .West 2 |||
              wrapping_shift (b.king b.color_to_move) .West 3) &&&
              b.all_piece_bitboard = 0 then
          [Move.Castle (b.king b.color_to_move)
            (wrapping_shift (b.king b.color_to_move) .West 2)
            (wrapping_shift (b.king b.color_to_move) .West 4)
            (wrapping_shift (b.king b.color_to_move) .West 1)]
        else []
      else []) = [] := by
      split
      · rw [if_neg]
        intro hcond
        exact hmask _ _ hcond.1
      · rfl
    rw [hks, hqs] at hm
    simp only [List.append_nil] at hm
    exact targets_to_moves_shape _ _ _ _ _ _ hm

/-- Witness for C7: on the concrete double-check position every generated
move is a `Normal` king move, castling rights notwithstanding. -/
theorem c7_witness :
    demoDoubleCheckBoard.pieces Piece.King < 2 ^ 64 ∧
    (∀ i ∈ List.range 64, demoAfs i < 2 ^ 64) ∧
    firstPieceIndex
      (demoDoubleCheckBoard.king demoDoubleCheckBoard.color_to_move) =
      some 4 ∧
    (MoveGenerator.classify demoDoubleCheckBoard
      demoAfs).is_double_check = true ∧
    ∀ m ∈ (MoveGenerator.classify demoDoubleCheckBoard
        demoAfs).generate_all_moves demoTables true demoDoubleCheckBoard,
      ∃ f t cap, m = Move.Normal f t cap Piece.King :=
  ⟨by decide, by decide, by decide, by decide,
    c7_double_check_only_king_moves demoDoubleCheckBoard demoAfs demoTables
      true 4 (by decide) (by decide) (by decide) (by decide)⟩

/-! ## Search (`search.rs`)

`search`/`quiescence_search`/`search_root` are translated with explicit
state threading: the mutable borrows (`board`, `stats`, the transposition
table) and the impure `should_exit` closure become a `SearchState` record
plus a tick-indexed exit predicate (each `should_exit()` call consumes one
tick).  `MoveGenerator::with_attacks` and `static_eval` (whose values
depend on the startup magic tables and the evaluators) enter through a
`SearchCtx` record, so every theorem below holds for the engine's actual
generator and evaluator in particular.  Quiescence carries explicit fuel
(its source recursion is bounded only by captures running out); a
fuel-exhausted call returns `window.finalize()`.  Wall-clock quantities
(`time_taken`, the deadline) are folded into the exit predicate; the f32
`hash_percentage` is carried as its numerator/denominator pair. -/

/-- If `should_exit()` reports true at the entry of the shared search
prelude, it returns the `Cancelled` signal at once, having consumed
exactly that one `should_exit()` call. -/
theorem search_entry_cancel (ctx : SearchCtx) (dl : Nat)
    (w : AlphaBetaWindow) (st : SearchState)
    (h : ctx.shouldExit st.tick = true) :
    search_entry ctx dl w st = .inl (.error .Cancelled, st.bumpTick) := by
  simp [search_entry, h, Id.run]

/-- The shared search prelude never changes the board: both on early
return and on fall-through the state's board is the entry board. -/
theorem search_entry_board (ctx : SearchCtx) (dl : Nat)
    (w : AlphaBetaWindow) (st : SearchState) :
    (search_entry ctx dl w st).elim (fun r => r.2.board)
      (fun x => x.2.2.board) = st.board := by
  simp only [search_entry, Id.run, Id.pure_eq, Id.bind_eq]
  repeat' split
  all_goals simp [SearchState.bumpTick]

/-- If `should_exit()` reports true at the entry of `search`, it returns
the `Cancelled` signal without searching further. -/
theorem search_cancel (ctx : SearchCtx) (fuel dl : Nat)
    (w : AlphaBetaWindow) (st : SearchState)
    (h : ctx.shouldExit st.tick = true) :
    search ctx fuel dl w st = (.error .Cancelled, st.bumpTick) := by
  cases dl <;> simp [search, search_entry_cancel _ _ _ _ h]

/-- If the recursive call restores the board, so does every iteration of
the quiescence capture loop: each move is unmade on every exit path. -/
theorem quiescence_loop_board (keys : ZobristKeys)
    (rec : AlphaBetaWindow → SearchState →
      Except SearchExit NodeEvalSummary × SearchState)
    (hrec : ∀ w st, (rec w st).2.board = st.board) :
    ∀ (ms : List Move) (isf : Bool) (w : AlphaBetaWindow)
      (st : SearchState),
      (quiescence_loop keys rec ms isf w st).2.2.board = st.board := by
  intro ms
  induction ms with
  | nil => intro isf w st; rfl
  | cons m rest ih =>
    intro isf w st
    rcases hpe : rec w.next_depth
        { st with board := st.board.make_move_unguarded keys m } with
      ⟨res, st1⟩
    have hb : st1.board = st.board.make_move_unguarded keys m := by
      have h := hrec w.next_depth
        { st with board := st.board.make_move_unguarded keys m }
      rw [hpe] at h
      exact h
    have hundo : st1.board.try_undo_move.1 = st.board := by
      rw [hb, make_undo_roundtrip]
    cases res with
    | error e => simp [quiescence_loop, hpe, hundo, Id.run]
    | ok out =>
      rcases hup : w.update out.eval.neg (some m) with ⟨upd, w2⟩
      cases upd with
      | NewBest =>
        cases isf <;> simp [quiescence_loop, hpe, hup, hundo, ih, Id.run]
      | NoImprovement =>
        cases isf <;> simp [quiescence_loop, hpe, hup, hundo, ih, Id.run]
      | Prune =>
        cases isf <;> simp [quiescence_loop, hpe, hup, hundo, Id.run]

/-- If the recursive call restores the board, so does every iteration of
the main search move loop. -/
theorem search_loop_board (keys : ZobristKeys)
    (rec : AlphaBetaWindow → SearchState →
      Except SearchExit NodeEvalSummary × SearchState)
    (hrec : ∀ w st, (rec w st).2.board = st.board) :
    ∀ (ms : List Move) (isf : Bool) (w : AlphaBetaWindow)
      (st : SearchState),
      (search_loop keys rec ms isf w st).2.2.board = st.board := by
  intro ms
  induction ms with
  | nil => intro isf w st; rfl
  | cons m rest ih =>
    intro isf w st
    rcases hpe : rec w.next_depth
        { st with board := st.board.make_move_unguarded keys m } with
      ⟨res, st1⟩
    have hb : st1.board = st.board.make_move_unguarded keys m := by
      have h := hrec w.next_depth
        { st with board := st.board.make_move_unguarded keys m }
      rw [hpe] at h
      exact h
    have hundo : st1.board.try_undo_move.1 = st.board := by
      rw [hb, make_undo_roundtrip]
    cases res with
    | error e => simp [search_loop, hpe, hundo, Id.run]
    | ok out =>
      rcases hup : w.update out.eval.neg (some m) with ⟨upd, w2⟩
      cases upd with
      | NewBest =>
        cases isf <;> simp [search_loop, hpe, hup, hundo, ih, Id.run]
      | NoImprovement =>
        cases isf <;> simp [search_loop, hpe, hup, hundo, ih, Id.run]
      | Prune =>
        cases isf <;> simp [search_loop, hpe, hup, hundo, Id.run]

/-- `quiescence_search` restores the board on every exit, normal or
cancelled. -/
theorem quiescence_search_board (ctx : SearchCtx) :
    ∀ (fuel : Nat) (w : AlphaBetaWindow) (st : SearchState),
      (quiescence_search ctx fuel w st).2.board = st.board := by
  intro fuel
  induction fuel with
  | zero => intro w st; rfl
  | succ fuel ih =>
    intro w st
    have hq := quiescence_loop_board ctx.keys (quiescence_search ctx fuel)
      ih
    simp only [quiescence_search, Id.run, Id.pure_eq, Id.bind_eq]
    repeat' split
    all_goals simp_all [SearchState.bumpTick]

/-- `search` restores the board on every exit, normal or cancelled. -/
theorem search_board (ctx : SearchCtx) (fuel : Nat) :
    ∀ (dl : Nat) (w : AlphaBetaWindow) (st : SearchState),
      (search ctx fuel dl w st).2.board = st.board := by
  intro dl
  induction dl with
  | zero =>
    intro w st
    have he := search_entry_board ctx 0 w st
    rcases hse : search_entry ctx 0 w st with r | x
    · rw [hse] at he
      simp only [search, hse]
      simpa using he
    · rw [hse] at he
      obtain ⟨g, prev, st2⟩ := x
      simp only [search, hse, Id.run, Id.pure_eq, Id.bind_eq]
      rcases hqs : quiescence_search ctx fuel w st2 with ⟨q, st3⟩
      have h3 : st3.board = st2.board := by
        have h := quiescence_search_board ctx fuel w st2
        rw [hqs] at h
        exact h
      cases q <;> simp_all
  | succ d ih =>
    intro w st
    have he := search_entry_board ctx (d + 1) w st
    rcases hse : search_entry ctx (d + 1) w st with r | x
    · rw [hse] at he
      simp only [search, hse]
      simpa using he
    · rw [hse] at he
      obtain ⟨g, prev, st2⟩ := x
      have hl := search_loop_board ctx.keys
        (fun w st => search ctx fuel d w st) ih
      simp only [search, hse, Id.run, Id.pure_eq, Id.bind_eq]
      repeat' split
      all_goals simp_all

/-- C1: the iterative-deepening loop of `search_root` is off by one: the
source iterates the half-open range `1..N`, so an uncancelled
`go depth 4` run from the starting position completes only depths 1, 2
and 3 and emits three depth summaries, not the four the claim and spec
require. -/
theorem c1_depth_limit_off_by_one :
    ((search_root demoSearchCtx 2 { depth := some 4 }
        demoSearchSt).2.1.map (fun s => s.depth) = [1, 2, 3]) ∧
    ((search_root demoSearchCtx 2 { depth := some 4 }
        demoSearchSt).2.1.length ≠ 4) := by
  decide

/-- C8: cancellation is prompt and clean: (i) if `should_exit()` holds
when `search` is entered it returns `Cancelled` immediately, (ii) on any
exit of `search`, normal or cancelled, the board equals the entry board,
and (iii) when the depth-`d` iteration of `search_root`'s loop is
cancelled, the loop discards that partial depth and returns the best
move and summaries of the previously completed depths unchanged. -/
theorem c8_cancellation_prompt_and_clean (ctx : SearchCtx)
    (fuel depth_left : Nat) (w : AlphaBetaWindow) (st : SearchState) :
    (ctx.shouldExit st.tick = true →
      search ctx fuel depth_left w st = (.error .Cancelled, st.bumpTick)) ∧
    (search ctx fuel depth_left w st).2.board = st.board ∧
    (∀ (rest : List Nat) (prev : Move) (acc : List DepthSummary)
      (st2 : SearchState),
      ctx.shouldExit st.tick = false →
      search ctx fuel depth_left AlphaBetaWindow.default st.bumpTick =
        (.error .Cancelled, st2) →
      search_root_loop ctx fuel (depth_left :: rest) prev acc st =
        (prev, acc, st2)) := by
  refine ⟨fun h => search_cancel ctx fuel depth_left w st h,
    search_board ctx fuel depth_left w st, ?_⟩
  intro rest prev acc st2 h1 h2
  simp [search_root_loop, h1, h2, Id.run]

/-- The cancellation claim at concrete inputs: with a cancel flag that
rises at tick 1, an entered `search` cancels immediately and keeps the
board, and the root loop at depths `[2, 3]` from tick 0 discards the
cancelled depth-2 iteration, keeping the previous best move and the
empty summary list. -/
theorem c8_witness :
    (search lateExitCtx 1 2 AlphaBetaWindow.default demoSearchSt1 =
      (.error .Cancelled, demoSearchSt1.bumpTick)) ∧
    (search lateExitCtx 1 2 AlphaBetaWindow.default
        demoSearchSt1).2.board = demoSearchSt1.board ∧
    search_root_loop lateExitCtx 1 [2, 3] (Move.Normal 2 4 none .King) []
        demoSearchSt =
      (Move.Normal 2 4 none .King, [], demoSearchSt.bumpTick.bumpTick) :=
  ⟨(c8_cancellation_prompt_and_clean lateExitCtx 1 2
      AlphaBetaWindow.default demoSearchSt1).1 rfl,
   (c8_cancellation_prompt_and_clean lateExitCtx 1 2
      AlphaBetaWindow.default demoSearchSt1).2.1,
   (c8_cancellation_prompt_and_clean lateExitCtx 1 2
      AlphaBetaWindow.default demoSearchSt).2.2 [3]
     (Move.Normal 2 4 none .King) [] demoSearchSt.bumpTick.bumpTick rfl
     rfl⟩

end Thera
